import Mathlib

/-!
Verification of the DeviceSQL (Rekordbox PDB) reader/writer core:
a shallow embedding, in Lean 4, of `src/lib/pdb-parser.ts` and
`src/lib/pdb-writer.ts`, followed by theorems about the embedded code.

Modelling conventions:
* an `ArrayBuffer` is a `List Nat` of byte values;
* a JS string is the list of its UTF-16 code units (`List Nat`);
* JS numbers that the code only ever produces as unsigned integers
  (`getUint8/16/32` results, lengths, offsets) are `Nat`;
* the `DataView` bounds-checked reads of the source return default values
  (0 / empty array) on a failed check, exactly as the source does, so every
  embedded operation is a total function.
-/

namespace PDB

/-- A byte buffer (JS `ArrayBuffer`), modelled as a list of byte values. -/
abbrev ByteBuf := List Nat

/-- A JS string, modelled as its list of UTF-16 code units. -/
abbrev JsString := List Nat

/-- `DataView.getUint8`: the byte at index `i`.  All accesses performed by the
source are bounds-checked before reaching the view, so the default 0 for an
out-of-range index is never observable. -/
def byteAt (buf : ByteBuf) (i : Nat) : Nat := buf.getD i 0

/-- Little-endian `DataView.getUint16(i, true)`. -/
def readU16at (buf : ByteBuf) (i : Nat) : Nat :=
  byteAt buf i + 256 * byteAt buf (i + 1)

/-- Little-endian `DataView.getUint32(i, true)`. -/
def readU32at (buf : ByteBuf) (i : Nat) : Nat :=
  byteAt buf i + 256 * byteAt buf (i + 1) + 65536 * byteAt buf (i + 2) +
    16777216 * byteAt buf (i + 3)

/-- Little-endian `DataView.setUint32(i, v, true)`: writes the four bytes of
`v mod 2^32` at indices `i .. i+3` (a `List.set` out of range is a no-op; the
source only writes at offsets previously checked to be in range). -/
def setU32at (buf : ByteBuf) (i v : Nat) : ByteBuf :=
  ((((buf.set i (v % 256)).set (i + 1) (v / 256 % 256)).set
      (i + 2) (v / 65536 % 256)).set (i + 3) (v / 16777216 % 256))

/-- The `BinaryReader` class of `pdb-parser.ts`: one immutable buffer plus a
cursor position. -/
structure BinaryReader where
  buf : ByteBuf
  pos : Nat

/-- `BinaryReader.length` (the `byteLength` of the wrapped buffer). -/
def BinaryReader.length (r : BinaryReader) : Nat := r.buf.length

/-- `canRead(bytes)`: `this.offset + bytes <= this.length`. -/
def BinaryReader.canRead (r : BinaryReader) (bytes : Nat) : Bool :=
  r.pos + bytes ≤ r.length

/-- `seek(offset)`. -/
def BinaryReader.seek (r : BinaryReader) (offset : Nat) : BinaryReader :=
  { r with pos := offset }

/-- `readU8()`: returns 0 without advancing when the bounds check fails. -/
def BinaryReader.readU8 (r : BinaryReader) : Nat × BinaryReader :=
  if r.canRead 1 then (byteAt r.buf r.pos, { r with pos := r.pos + 1 })
  else (0, r)

/-- `readU16()` (little-endian): returns 0 without advancing when the bounds
check fails. -/
def BinaryReader.readU16 (r : BinaryReader) : Nat × BinaryReader :=
  if r.canRead 2 then (readU16at r.buf r.pos, { r with pos := r.pos + 2 })
  else (0, r)

/-- `readU32()` (little-endian): returns 0 without advancing when the bounds
check fails. -/
def BinaryReader.readU32 (r : BinaryReader) : Nat × BinaryReader :=
  if r.canRead 4 then (readU32at r.buf r.pos, { r with pos := r.pos + 4 })
  else (0, r)

/-- `readBytes(length)`: returns an empty array without advancing when the
bounds check fails. -/
def BinaryReader.readBytes (r : BinaryReader) (length : Nat) :
    ByteBuf × BinaryReader :=
  if r.canRead length then
    ((r.buf.drop r.pos).take length, { r with pos := r.pos + length })
  else ([], r)

/-- The windows-1252 high-range table (code points for bytes `0x80 .. 0x9F`).
JS `TextDecoder('ascii')` is the WHATWG windows-1252 decoder: bytes below
`0x80` and from `0xA0` up map to the equal code point, bytes in between map
through this table. -/
def windows1252Table : List Nat :=
  [0x20AC, 0x81, 0x201A, 0x0192, 0x201E, 0x2026, 0x2020, 0x2021,
   0x02C6, 0x2030, 0x0160, 0x2039, 0x0152, 0x8D, 0x017D, 0x8F,
   0x90, 0x2018, 0x2019, 0x201C, 0x201D, 0x2022, 0x2013, 0x2014,
   0x02DC, 0x2122, 0x0161, 0x203A, 0x0153, 0x9D, 0x017E, 0x9F]

/-- One byte through the windows-1252 decoder. -/
def windows1252 (b : Nat) : Nat :=
  if 0x80 ≤ b ∧ b ≤ 0x9F then windows1252Table.getD (b - 0x80) b else b

/-- `new TextDecoder('ascii').decode(bytes)` (never throws: non-fatal mode). -/
def asciiDecode (bytes : ByteBuf) : JsString := bytes.map windows1252

/-- Pair up little-endian byte pairs into UTF-16 code units; a trailing lone
byte becomes U+FFFD (non-fatal `TextDecoder` behaviour). -/
def utf16leUnits : ByteBuf → List Nat
  | [] => []
  | [_] => [0xFFFD]
  | b0 :: b1 :: rest => (b0 + 256 * b1) :: utf16leUnits rest

/-- Is `u` a high (leading) surrogate code unit? -/
def isHighSurrogate (u : Nat) : Bool := 0xD800 ≤ u ∧ u ≤ 0xDBFF

/-- Is `u` a low (trailing) surrogate code unit? -/
def isLowSurrogate (u : Nat) : Bool := 0xDC00 ≤ u ∧ u ≤ 0xDFFF

/-- Replace unpaired surrogate code units by U+FFFD, keeping well-formed
surrogate pairs (non-fatal `TextDecoder` behaviour). -/
def fixSurrogates : List Nat → List Nat
  | [] => []
  | [u] =>
    if isHighSurrogate u || isLowSurrogate u then [0xFFFD] else [u]
  | u :: l :: rest =>
    if isHighSurrogate u then
      (if isLowSurrogate l then u :: l :: fixSurrogates rest
       else 0xFFFD :: fixSurrogates (l :: rest))
    else if isLowSurrogate u then 0xFFFD :: fixSurrogates (l :: rest)
    else u :: fixSurrogates (l :: rest)

/-- `new TextDecoder('utf-16le').decode(bytes)` (never throws: non-fatal).
With the default `ignoreBOM: false` the decoder consumes a leading
byte-order mark: a stream beginning with the bytes `0xFF 0xFE` (the
little-endian encoding of U+FEFF) has those two bytes stripped before
decoding. -/
def utf16leDecode (bytes : ByteBuf) : JsString :=
  match bytes with
  | b0 :: b1 :: rest =>
    if b0 = 0xFF ∧ b1 = 0xFE then fixSurrogates (utf16leUnits rest)
    else fixSurrogates (utf16leUnits (b0 :: b1 :: rest))
  | _ => fixSurrogates (utf16leUnits bytes)

/-- The source's `.replace` with a regexp matching trailing NULs, applied
after decoding: strip trailing U+0000 code units. -/
def stripTrailingNuls (s : JsString) : JsString :=
  (s.reverse.dropWhile (· == 0)).reverse

/-- `BinaryReader.readDeviceSqlString(baseOffset, stringOffset)`.

Notes on the translation:
* the JS `try`/`catch` around the body can never fire (all reads are
  bounds-checked and `TextDecoder` in non-fatal mode never throws), so the
  body is translated directly;
* `stringPos < 0` is impossible over `Nat` and is dropped;
* in the fallback branch the JS code computes the fractional
  `(lengthByte - 1) / 2 - 1` and floors it before `readBytes`; over the byte
  values `0 .. 255` that can actually reach that branch, flooring first (as
  done here with `Nat` division) yields exactly the same control flow and
  result. -/
def BinaryReader.readDeviceSqlString (r : BinaryReader)
    (baseOffset stringOffset : Nat) : JsString :=
  if stringOffset = 0 then [] else
  let stringPos := baseOffset + stringOffset
  if stringPos ≥ r.length then [] else
  let r := r.seek stringPos
  let p := r.readU8
  let lengthByte := p.1
  let r := p.2
  if lengthByte = 0x40 then
    -- Long ASCII string
    let q := r.readU8
    let length := q.1
    let r := q.2
    if length == 0 || !r.canRead length then [] else
    asciiDecode (r.readBytes length).1
  else if lengthByte = 0x90 then
    -- Long UTF-16LE string
    let q := r.readU16
    let length := q.1
    let r := q.2
    if length == 0 || !r.canRead length then [] else
    utf16leDecode (r.readBytes length).1
  else if lengthByte % 64 = lengthByte then
    -- Short ASCII string - length is in the byte itself
    let length := lengthByte / 2
    if length == 0 || !r.canRead length then [] else
    stripTrailingNuls (asciiDecode (r.readBytes length).1)
  else
    -- Likely short string encoded differently
    let length := (lengthByte - 1) / 2 - 1
    if length == 0 || length > 127 || !r.canRead length then [] else
    stripTrailingNuls (asciiDecode (r.readBytes length).1)

/-! ## Playlist writer (`pdb-writer.ts`) -/

/-- A playlist entry row: `(entryIndex, trackId, playlistId)`. -/
structure PlaylistEntry where
  entryIndex : Nat
  trackId : Nat
  playlistId : Nat
deriving DecidableEq

/-- The string key `playlistId-trackId-entryIndex` used by the writer, as the
corresponding triple (the decimal string form is injective on triples of
nonnegative integers, so the triple is a faithful model of the key). -/
abbrev EntryKey := Nat × Nat × Nat

/-- Key of an in-memory playlist entry. -/
def entryKey (e : PlaylistEntry) : EntryKey :=
  (e.playlistId, e.trackId, e.entryIndex)

/-- The triple read from the buffer at a candidate offset, in key order:
`playlistId = getUint32(offset+8)`, `trackId = getUint32(offset+4)`,
`entryIndex = getUint32(offset)`. -/
def readTriple (buf : ByteBuf) (offset : Nat) : EntryKey :=
  (readU32at buf (offset + 8), readU32at buf (offset + 4), readU32at buf offset)

/-- State of the single-pass scan: the `locations` map built so far (an
association list with at most one binding per key) and the `entriesToFind`
set still to be located. -/
structure ScanState where
  locations : List (EntryKey × Nat)
  toFind : List EntryKey

/-- One loop iteration of `findPlaylistEntriesByPattern` at candidate byte
offset `off`.  The source `break`s out of the loop once `entriesToFind` is
empty; since no later iteration could change the state once the set is empty,
the break is modelled by making such iterations the identity. -/
def scanStep (buf : ByteBuf) (st : ScanState) (off : Nat) : ScanState :=
  if st.toFind.isEmpty then st
  else if readTriple buf off ∈ st.toFind then
    { locations := st.locations ++ [(readTriple buf off, off)],
      toFind := st.toFind.erase (readTriple buf off) }
  else st

/-- The candidate offsets of the scan: every even `offset` with
`offset < buffer.byteLength - 12` (no iterations when the length is below
12, matching the JS comparison against a negative right-hand side). -/
def scanOffsets (len : Nat) : List Nat :=
  (List.range ((len - 12 + 1) / 2)).map (2 * ·)

/-- `findPlaylistEntriesByPattern(buffer, originalEntries)`: single pass over
the buffer recording `key → offset` for each original entry found.  The JS
`Set` of keys is modelled by a deduplicated list; `try`/`catch` in the loop
can never fire (every read in the scan range is in bounds). -/
def findPlaylistEntriesByPattern (buf : ByteBuf)
    (originalEntries : List PlaylistEntry) : List (EntryKey × Nat) :=
  let entriesToFind := (originalEntries.map entryKey).dedup
  ((scanOffsets buf.length).foldl (scanStep buf)
    { locations := [], toFind := entriesToFind }).locations

/-- The comparator `(a, b) => a.entryIndex - b.entryIndex` of the source's
`.sort` calls, as the relation it induces. -/
def entryLe (a b : PlaylistEntry) : Prop := a.entryIndex ≤ b.entryIndex

instance : DecidableRel entryLe := fun a b => Nat.decLe a.entryIndex b.entryIndex

instance : IsTotal PlaylistEntry entryLe :=
  ⟨fun a b => Nat.le_total a.entryIndex b.entryIndex⟩

instance : IsTrans PlaylistEntry entryLe :=
  ⟨fun _ _ _ hab hbc => Nat.le_trans hab hbc⟩

/-- Sort entries by `entryIndex`.  `Array.prototype.sort` is required to be
stable, and the result of a stable sort is uniquely determined by the
comparator, so any stable sort models it; `List.insertionSort` is stable and
evaluates by structural recursion. -/
def sortByEntryIndex (l : List PlaylistEntry) : List PlaylistEntry :=
  List.insertionSort entryLe l

/-- The original entries sharing `(playlistId, trackId)` with `e`, sorted by
`entryIndex` (the writer's `originalSameTrack`). -/
def originalSameTrack (originalEntries : List PlaylistEntry)
    (e : PlaylistEntry) : List PlaylistEntry :=
  sortByEntryIndex (originalEntries.filter
    (fun x => x.playlistId == e.playlistId && x.trackId == e.trackId))

/-- The writer's `instanceIndex`: which instance (0, 1, 2, …) of this track in
this playlist the entry `e` is. -/
def instanceIdx (originalEntries : List PlaylistEntry) (e : PlaylistEntry) :
    Nat :=
  (originalSameTrack originalEntries e).findIdx
    (fun x => x.entryIndex == e.entryIndex)

/-- The writer's `modifiedSameTrack` for original entry `e`: the modified
entries of `e`'s playlist — the writer's `modifiedByPlaylist` map groups the
modified entries by playlist (preserving list order) and sorts each group by
its new `entryIndex` — restricted to `e`'s track. -/
def modifiedSameTrack (modifiedEntries : List PlaylistEntry)
    (e : PlaylistEntry) : List PlaylistEntry :=
  (sortByEntryIndex (modifiedEntries.filter
    (fun x => x.playlistId == e.playlistId))).filter
    (fun x => x.trackId == e.trackId)

/-- Lines 106–136 of the writer loop: the modified entry matched to original
entry `e`, or `none` when the entry is skipped.  The first guard is the JS
`if (!playlistModified)` (the playlist key is absent from `modifiedByPlaylist`
exactly when no modified entry has this `playlistId`), the second is
`modifiedSameTrack.length === 0`.  A JS `findIndex` miss yields `-1` and
`array[-1]` is `undefined`; here a `findIdx` miss yields the list length and
`getElem?` yields `none` — both mean "skip". -/
def matchedModified (originalEntries modifiedEntries : List PlaylistEntry)
    (e : PlaylistEntry) : Option PlaylistEntry :=
  if (modifiedEntries.filter
      (fun x => x.playlistId == e.playlistId)).isEmpty then none
  else if (modifiedSameTrack modifiedEntries e).isEmpty then none
  else (modifiedSameTrack modifiedEntries e)[instanceIdx originalEntries e]?

/-- One iteration of the writer's modification loop for original entry `e`,
acting on the working buffer. -/
def applyEntry (originalEntries modifiedEntries : List PlaylistEntry)
    (locations : List (EntryKey × Nat)) (buffer : ByteBuf)
    (e : PlaylistEntry) : ByteBuf :=
  match locations.lookup (entryKey e) with
  | none => buffer
  | some offset =>
    match matchedModified originalEntries modifiedEntries e with
    | none => buffer
    | some modifiedEntry =>
      let currentIndex := readU32at buffer offset
      if currentIndex ≠ modifiedEntry.entryIndex then
        setU32at buffer offset modifiedEntry.entryIndex
      else buffer

/-- `applyPlaylistModifications(originalBuffer, originalEntries,
modifiedEntries)`: copy the buffer, locate the original entries, then walk the
original entry list updating located ordinal fields in place. -/
def applyPlaylistModifications (originalBuffer : ByteBuf)
    (originalEntries modifiedEntries : List PlaylistEntry) : ByteBuf :=
  let buffer := originalBuffer
  let locations := findPlaylistEntriesByPattern buffer originalEntries
  originalEntries.foldl (applyEntry originalEntries modifiedEntries locations)
    buffer

/-! ## PDB parser (`pdb-parser.ts`) -/

/-- Table-type tags of the PDB table directory (`PageType` in the source). -/
def PageType.Tracks : Nat := 0

def PageType.Genres : Nat := 1

def PageType.Artists : Nat := 2

def PageType.Albums : Nat := 3

def PageType.Keys : Nat := 5

def PageType.Colors : Nat := 6

def PageType.PlaylistTree : Nat := 7

def PageType.PlaylistEntries : Nat := 8

def PageType.Artwork : Nat := 13

/-- A table-directory entry. -/
structure TablePointer where
  type : Nat
  firstPage : Nat
  lastPage : Nat
deriving DecidableEq

/-- A parsed 40-byte page header. -/
structure PageHeader where
  pageIndex : Nat
  type : Nat
  nextPage : Nat
  numRowsSmall : Nat
  numRowsLarge : Nat
  freeSize : Nat
  usedSize : Nat
  firstRowIndex : Nat
  firstRowOffset : Nat
  heapOffset : Nat
deriving DecidableEq

/-- The `PDBParser` object after its constructor ran `parseHeader()`: the
buffer, the page size read from file offset 4, and the table directory.  The
JS `Map` is modelled as an association list where later `set`s are prepended
and `get` takes the first match (same observable behaviour). -/
structure PDBParser where
  buf : ByteBuf
  pageSize : Nat
  tables : List (Nat × TablePointer)

/-- The table-directory loop of `parseHeader()`: `numTables` sequential
16-byte records from the current cursor; entries whose first and last page
are both 0 are not `set`. -/
def parseHeaderLoop (r : BinaryReader) (tables : List (Nat × TablePointer)) :
    Nat → List (Nat × TablePointer)
  | 0 => tables
  | n + 1 =>
    let p1 := r.readU32
    let type := p1.1
    let p2 := p1.2.readU32
    let p3 := p2.2.readU32
    let firstPage := p3.1
    let p4 := p3.2.readU32
    let lastPage := p4.1
    let tables2 :=
      if firstPage ≠ 0 ∨ lastPage ≠ 0 then
        (type, TablePointer.mk type firstPage lastPage) :: tables
      else tables
    parseHeaderLoop p4.2 tables2 n

/-- The `PDBParser` constructor plus `parseHeader()`: page size at offset 4,
table count at offset 8, one unused `u32` at offset 16, directory from
offset 28. -/
def mkPDBParser (buf : ByteBuf) : PDBParser :=
  let r0 : BinaryReader := ⟨buf, 0⟩
  let r1 := r0.seek 4
  let pageSize := r1.readU32.1
  let r2 := r1.readU32.2
  let r3 := r2.seek 8
  let numTables := r3.readU32.1
  let r4 := r3.readU32.2
  let r5 := r4.seek 16
  let r6 := r5.readU32.2
  let r7 := r6.seek 28
  { buf := buf, pageSize := pageSize,
    tables := parseHeaderLoop r7 [] numTables }

/-- `parsePageHeader(pageIndex)`: `none` when the 40-byte header does not fit
in the buffer (`pageOffset < 0` is impossible over `Nat`). -/
def parsePageHeader (buf : ByteBuf) (pageSize pageIndex : Nat) :
    Option PageHeader :=
  let pageOffset := pageIndex * pageSize
  if pageOffset + 40 > buf.length then none
  else
    let r0 : BinaryReader := ⟨buf, pageOffset⟩
    let r1 := r0.readU32.2
    let r2 := r1.readU32.2
    let type := r2.readU32.1
    let r3 := r2.readU32.2
    let nextPage := r3.readU32.1
    let r4 := r3.readU32.2
    let r5 := r4.readU32.2
    let r6 := r5.seek (pageOffset + 20)
    let numRowsSmall := r6.readU8.1
    let r7 := r6.readU8.2
    let r8 := r7.readU8.2
    let r9 := r8.readU8.2
    let r10 := r9.readU8.2
    let freeSize := r10.readU16.1
    let r11 := r10.readU16.2
    let usedSize := r11.readU16.1
    let r12 := r11.readU16.2
    let r13 := r12.readU16.2
    let numRowsLarge := r13.readU16.1
    let r14 := r13.readU16.2
    let r15 := r14.readU16.2
    let r16 := r15.readU16.2
    let firstRowOffset := r16.readU16.1
    some { pageIndex := pageIndex, type := type, nextPage := nextPage,
           numRowsSmall := numRowsSmall, numRowsLarge := numRowsLarge,
           freeSize := freeSize, usedSize := usedSize, firstRowIndex := 0,
           firstRowOffset := firstRowOffset, heapOffset := pageOffset + 40 }

/-- `header.numRowsLarge > 0 ? header.numRowsLarge : header.numRowsSmall`. -/
def selectNumRows (h : PageHeader) : Nat :=
  if h.numRowsLarge > 0 then h.numRowsLarge else h.numRowsSmall

/-- `Math.ceil(numRows / 8)`. -/
def bitmapSize (numRows : Nat) : Nat := (numRows + 7) / 8

/-- `bitmapSize + (bitmapSize % 2)`. -/
def paddedBitmapSize (numRows : Nat) : Nat :=
  bitmapSize numRows + bitmapSize numRows % 2

/-- The row loop of `iterateTableRows` on one page: `rowIndex` counts up,
`rem` is the number of slots still to visit (`numRows - rowIndex`); the two
`break`s of the source return `[]`.  Both in-loop reads happen only after
their explicit bounds checks, so `readU8`/`readU16` reduce to direct byte
access. -/
def rowLoop (buf : ByteBuf) (pageOffset bitmapOffset rowOffsetsStart : Nat) :
    Nat → Nat → List (Nat × Nat)
  | _, 0 => []
  | rowIndex, rem + 1 =>
    if bitmapOffset + rowIndex / 8 ≥ buf.length then []
    else
      if (byteAt buf (bitmapOffset + rowIndex / 8)).testBit (rowIndex % 8) then
        if rowOffsetsStart + rowIndex * 2 + 2 > buf.length then []
        else
          if 0 < pageOffset + readU16at buf (rowOffsetsStart + rowIndex * 2) ∧
              pageOffset + readU16at buf (rowOffsetsStart + rowIndex * 2) <
                buf.length then
            (pageOffset + readU16at buf (rowOffsetsStart + rowIndex * 2),
              pageOffset) ::
              rowLoop buf pageOffset bitmapOffset rowOffsetsStart
                (rowIndex + 1) rem
          else
            rowLoop buf pageOffset bitmapOffset rowOffsetsStart
              (rowIndex + 1) rem
      else
        rowLoop buf pageOffset bitmapOffset rowOffsetsStart (rowIndex + 1) rem

/-- One visited page of the walk: its index, byte offset, selected row count
and the offsets it yielded. -/
structure PageRec where
  page : Nat
  pageOffset : Nat
  numRows : Nat
  yields : List (Nat × Nat)
deriving DecidableEq

/-- `const maxPages = 100000`. -/
def maxPages : Nat := 100000

/-- The page loop of `iterateTableRows`: follow `nextPage` until page 0 or
the fuel (`maxPages` at the top call) runs out; a page whose selected row
count exceeds 10,000 is visited but yields nothing (`numRows < 0` is
impossible over `Nat`).  Each loop iteration of the source is one `PageRec`
here; the generator's output is the concatenation of the `yields`. -/
def walkPages (buf : ByteBuf) (pageSize : Nat) : Nat → Nat → List PageRec
  | _, 0 => []
  | currentPage, fuel + 1 =>
    if currentPage = 0 then []
    else
      match parsePageHeader buf pageSize currentPage with
      | none => []
      | some header =>
        { page := currentPage, pageOffset := currentPage * pageSize,
          numRows := selectNumRows header,
          yields :=
            if selectNumRows header > 10000 then []
            else
              rowLoop buf (currentPage * pageSize)
                (currentPage * pageSize + 40)
                (currentPage * pageSize + 40 +
                  paddedBitmapSize (selectNumRows header))
                0 (selectNumRows header) } ::
          walkPages buf pageSize header.nextPage fuel

/-- `iterateTableRows(tableType)` as the list of all yielded
`(offset, pageOffset)` pairs. -/
def iterateTableRows (P : PDBParser) (tableType : Nat) : List (Nat × Nat) :=
  match P.tables.lookup tableType with
  | none => []
  | some table =>
    (walkPages P.buf P.pageSize table.firstPage maxPages).flatMap
      PageRec.yields

/-! ## Row decoders and database assembly -/

/-- A decoded track row (the fields `parseTrack` returns). -/
structure TrackRow where
  id : Nat
  title : JsString
  artistId : Nat
  albumId : Nat
  genreId : Nat
  keyId : Nat
  duration : Nat
  tempo : Nat
  rating : Nat
  colorId : Nat
  bitrate : Nat
  sampleRate : Nat
  fileSize : Nat
  filePath : JsString
  fileName : JsString
  trackNumber : Nat
  discNumber : Nat
  year : Nat
  comment : JsString
  dateAdded : JsString
  artworkId : Nat
deriving DecidableEq

/-- A track as stored in the database: the decoded row plus the resolved
artist/album/genre/key display names. -/
structure Track where
  row : TrackRow
  artist : JsString
  album : JsString
  genre : JsString
  key : JsString
deriving DecidableEq

structure Artist where
  id : Nat
  name : JsString
deriving DecidableEq

structure Album where
  id : Nat
  name : JsString
  artistId : Nat
deriving DecidableEq

structure Genre where
  id : Nat
  name : JsString
deriving DecidableEq

structure KeyRec where
  id : Nat
  name : JsString
deriving DecidableEq

structure ColorRec where
  id : Nat
  name : JsString
deriving DecidableEq

structure Artwork where
  id : Nat
  path : JsString
deriving DecidableEq

structure PlaylistTreeNode where
  id : Nat
  parentId : Nat
  name : JsString
  isFolder : Bool
  sortOrder : Nat
deriving DecidableEq

/-- Read `n` consecutive `u16` values (the string-offset table loop). -/
def readU16List (r : BinaryReader) : Nat → List Nat × BinaryReader
  | 0 => ([], r)
  | n + 1 =>
    let p := r.readU16
    let rest := readU16List p.2 n
    (p.1 :: rest.1, rest.2)

/-- `parseTrack(offset, pageOffset)` (the page offset is unused by the
source, as is the result of several reads kept only to advance the cursor;
such reads whose value and final cursor position are both unused are elided
here, with the following `seek` supplying the next position exactly as in the
source). -/
def parseTrack (buf : ByteBuf) (offset : Nat) : TrackRow :=
  let r0 : BinaryReader := ⟨buf, offset⟩
  let subtype := r0.readU16.1
  let r1 := r0.readU16.2
  let r2 := r1.readU16.2
  let r3 := r2.readU32.2
  let sampleRate := r3.readU32.1
  let r4 := r3.readU32.2
  let r5 := r4.readU32.2
  let fileSize := r5.readU32.1
  let r6 := (r5.readU32.2).seek (offset + 20)
  let artworkId := r6.readU32.1
  let r7 := r6.readU32.2
  let keyId := r7.readU32.1
  let r8 := r7.readU32.2
  let r9 := r8.readU32.2
  let r10 := r9.readU32.2
  let r11 := r10.readU32.2
  let bitrate := r11.readU32.1
  let r12 := r11.readU32.2
  let trackNumber := r12.readU32.1
  let r13 := r12.readU32.2
  let tempo := r13.readU32.1
  let r14 := r13.readU32.2
  let genreId := r14.readU32.1
  let r15 := r14.readU32.2
  let albumId := r15.readU32.1
  let r16 := r15.readU32.2
  let artistId := r16.readU32.1
  let r17 := r16.readU32.2
  let id := r17.readU32.1
  let r18 := (r17.readU32.2).seek (offset + 68)
  let discNumber := r18.readU16.1
  let r19 := r18.readU16.2
  let r20 := r19.readU16.2
  let year := r20.readU16.1
  let r21 := r20.readU16.2
  let r22 := r21.readU16.2
  let duration := r22.readU16.1
  let r23 := (r22.readU16.2).seek (offset + 78)
  let r24 := r23.readU16.2
  let colorId := r24.readU8.1
  let r25 := r24.readU8.2
  let rating := r25.readU8.1
  let r26 := (r25.readU8.2).seek (offset + 82)
  let stringOffsets :=
    if subtype.testBit 2 then (readU16List r26 21).1
    else (readU16List r26.readU8.2 21).1
  let title := BinaryReader.readDeviceSqlString ⟨buf, 0⟩ offset
    (stringOffsets.getD 16 0)
  let fileName := BinaryReader.readDeviceSqlString ⟨buf, 0⟩ offset
    (stringOffsets.getD 18 0)
  let filePath := BinaryReader.readDeviceSqlString ⟨buf, 0⟩ offset
    (stringOffsets.getD 19 0)
  let comment := BinaryReader.readDeviceSqlString ⟨buf, 0⟩ offset
    (stringOffsets.getD 15 0)
  let dateAdded := BinaryReader.readDeviceSqlString ⟨buf, 0⟩ offset
    (stringOffsets.getD 9 0)
  { id := id, title := title, artistId := artistId, albumId := albumId,
    genreId := genreId, keyId := keyId, duration := duration, tempo := tempo,
    rating := rating, colorId := colorId, bitrate := bitrate,
    sampleRate := sampleRate, fileSize := fileSize, filePath := filePath,
    fileName := fileName, trackNumber := trackNumber,
    discNumber := discNumber, year := year, comment := comment,
    dateAdded := dateAdded, artworkId := artworkId }

/-- `parseArtist(offset)`; the JS `ofsNameNear || 9` maps 0 to 9. -/
def parseArtist (buf : ByteBuf) (offset : Nat) : Artist :=
  let r0 : BinaryReader := ⟨buf, offset⟩
  let r1 := r0.readU16.2
  let r2 := r1.readU16.2
  let id := r2.readU32.1
  let r3 := r2.readU32.2
  let ofsNameNear := r3.readU8.1
  let name := BinaryReader.readDeviceSqlString ⟨buf, 0⟩ offset
    (if ofsNameNear = 0 then 9 else ofsNameNear)
  { id := id, name := name }

/-- `parseAlbum(offset)`; the JS `ofsNameNear || 13` maps 0 to 13. -/
def parseAlbum (buf : ByteBuf) (offset : Nat) : Album :=
  let r0 : BinaryReader := ⟨buf, offset⟩
  let r1 := r0.readU16.2
  let r2 := r1.readU16.2
  let artistId := r2.readU32.1
  let r3 := r2.readU32.2
  let id := r3.readU32.1
  let r4 := r3.readU32.2
  let ofsNameNear := r4.readU8.1
  let name := BinaryReader.readDeviceSqlString ⟨buf, 0⟩ offset
    (if ofsNameNear = 0 then 13 else ofsNameNear)
  { id := id, name := name, artistId := artistId }

/-- `parseGenre(offset)`. -/
def parseGenre (buf : ByteBuf) (offset : Nat) : Genre :=
  let r0 : BinaryReader := ⟨buf, offset⟩
  let id := r0.readU32.1
  { id := id,
    name := BinaryReader.readDeviceSqlString ⟨buf, 0⟩ offset 5 }

/-- `parseKey(offset)`. -/
def parseKey (buf : ByteBuf) (offset : Nat) : KeyRec :=
  let r0 : BinaryReader := ⟨buf, offset⟩
  let id := r0.readU32.1
  { id := id,
    name := BinaryReader.readDeviceSqlString ⟨buf, 0⟩ offset 9 }

/-- `parseColor(offset)`. -/
def parseColor (buf : ByteBuf) (offset : Nat) : ColorRec :=
  let r0 : BinaryReader := ⟨buf, offset⟩
  let r1 := r0.readU32.2
  let id := r1.readU8.1
  { id := id,
    name := BinaryReader.readDeviceSqlString ⟨buf, 0⟩ offset 6 }

/-- `parseArtwork(offset)`. -/
def parseArtwork (buf : ByteBuf) (offset : Nat) : Artwork :=
  let r0 : BinaryReader := ⟨buf, offset⟩
  let id := r0.readU32.1
  { id := id,
    path := BinaryReader.readDeviceSqlString ⟨buf, 0⟩ offset 5 }

/-- `parsePlaylistTreeNode(offset)`. -/
def parsePlaylistTreeNode (buf : ByteBuf) (offset : Nat) : PlaylistTreeNode :=
  let r0 : BinaryReader := ⟨buf, offset⟩
  let parentId := r0.readU32.1
  let r1 := r0.readU32.2
  let sortOrder := r1.readU32.1
  let r2 := r1.readU32.2
  let id := r2.readU32.1
  let r3 := r2.readU32.2
  let rawIsFolder := r3.readU32.1
  { id := id, parentId := parentId,
    name := BinaryReader.readDeviceSqlString ⟨buf, 0⟩ offset 17,
    isFolder := rawIsFolder ≠ 0, sortOrder := sortOrder }

/-- `parsePlaylistEntry(offset)`. -/
def parsePlaylistEntry (buf : ByteBuf) (offset : Nat) : PlaylistEntry :=
  let r0 : BinaryReader := ⟨buf, offset⟩
  let entryIndex := r0.readU32.1
  let r1 := r0.readU32.2
  let trackId := r1.readU32.1
  let r2 := r1.readU32.2
  let playlistId := r2.readU32.1
  { entryIndex := entryIndex, trackId := trackId, playlistId := playlistId }

/-- The parsed database; each JS `Map` is an association list where `set`
prepends and `get` takes the first match. -/
structure RekordboxDatabase where
  tracks : List (Nat × Track)
  artists : List (Nat × Artist)
  albums : List (Nat × Album)
  genres : List (Nat × Genre)
  keys : List (Nat × KeyRec)
  colors : List (Nat × ColorRec)
  artworks : List (Nat × Artwork)
  playlistTree : List (Nat × PlaylistTreeNode)
  playlistEntries : List PlaylistEntry
deriving DecidableEq

/-- The all-empty database `parse()` starts from. -/
def emptyDatabase : RekordboxDatabase :=
  { tracks := [], artists := [], albums := [], genres := [], keys := [],
    colors := [], artworks := [], playlistTree := [], playlistEntries := [] }

/-- JS `Map.set` (observably: later bindings shadow earlier ones). -/
def mapSet {α : Type} (m : List (Nat × α)) (k : Nat) (v : α) :
    List (Nat × α) :=
  (k, v) :: m

/-- The name resolution of `parse()` for tracks:
`db.xxx.get(id)?.name || ''`. -/
def resolveName {α : Type} (name : α → JsString) (m : List (Nat × α))
    (id : Nat) : JsString :=
  match m.lookup id with
  | none => []
  | some a => name a

/-- `PDBParser.parse()`.  Every row decoder is total, so the per-row and
per-table `try`/`catch` of the source can never fire, and every decoded row
has a defined `id` (`trackId`/`playlistId` for entries), so every row is
inserted. -/
def PDBParser.parse (P : PDBParser) : RekordboxDatabase :=
  let artists := (iterateTableRows P PageType.Artists).foldl
    (fun m y => mapSet m (parseArtist P.buf y.1).id (parseArtist P.buf y.1)) []
  let albums := (iterateTableRows P PageType.Albums).foldl
    (fun m y => mapSet m (parseAlbum P.buf y.1).id (parseAlbum P.buf y.1)) []
  let genres := (iterateTableRows P PageType.Genres).foldl
    (fun m y => mapSet m (parseGenre P.buf y.1).id (parseGenre P.buf y.1)) []
  let keys := (iterateTableRows P PageType.Keys).foldl
    (fun m y => mapSet m (parseKey P.buf y.1).id (parseKey P.buf y.1)) []
  let colors := (iterateTableRows P PageType.Colors).foldl
    (fun m y => mapSet m (parseColor P.buf y.1).id (parseColor P.buf y.1)) []
  let artworks := (iterateTableRows P PageType.Artwork).foldl
    (fun m y =>
      mapSet m (parseArtwork P.buf y.1).id (parseArtwork P.buf y.1)) []
  let tracks := (iterateTableRows P PageType.Tracks).foldl
    (fun m y =>
      let t := parseTrack P.buf y.1
      mapSet m t.id
        { row := t,
          artist := resolveName Artist.name artists t.artistId,
          album := resolveName Album.name albums t.albumId,
          genre := resolveName Genre.name genres t.genreId,
          key := resolveName KeyRec.name keys t.keyId }) []
  let playlistTree := (iterateTableRows P PageType.PlaylistTree).foldl
    (fun m y =>
      mapSet m (parsePlaylistTreeNode P.buf y.1).id
        (parsePlaylistTreeNode P.buf y.1)) []
  let playlistEntries := (iterateTableRows P PageType.PlaylistEntries).foldl
    (fun l y => l ++ [parsePlaylistEntry P.buf y.1]) []
  { tracks := tracks, artists := artists, albums := albums, genres := genres,
    keys := keys, colors := colors, artworks := artworks,
    playlistTree := playlistTree, playlistEntries := playlistEntries }

/-! ### Concrete example data -/

/-- The 12 little-endian bytes of a playlist-entry row
`(entryIndex, trackId, playlistId)`. -/
def tripleBytes (i t p : Nat) : List Nat :=
  [i % 256, i / 256 % 256, i / 65536 % 256, i / 16777216 % 256,
   t % 256, t / 256 % 256, t / 65536 % 256, t / 16777216 % 256,
   p % 256, p / 256 % 256, p / 65536 % 256, p / 16777216 % 256]

/-- A 38-byte buffer holding playlist 1 with tracks 10, 20, 30 at ordinals
0, 1, 2. -/
def exBuf1 : ByteBuf :=
  tripleBytes 0 10 1 ++ tripleBytes 1 20 1 ++ tripleBytes 2 30 1 ++ [0, 0]

/-- The entries of `exBuf1`. -/
def exOrig1 : List PlaylistEntry := [⟨0, 10, 1⟩, ⟨1, 20, 1⟩, ⟨2, 30, 1⟩]

/-- `exOrig1` with the last two tracks swapped. -/
def exMod1 : List PlaylistEntry := [⟨0, 10, 1⟩, ⟨1, 30, 1⟩, ⟨2, 20, 1⟩]

/-- A 26-byte buffer holding playlist 1 with track 10 twice (ordinals 0
and 4). -/
def exBuf2 : ByteBuf :=
  tripleBytes 0 10 1 ++ tripleBytes 4 10 1 ++ [0, 0]

/-- The entries of `exBuf2`: the same track twice in one playlist. -/
def exOrig2 : List PlaylistEntry := [⟨0, 10, 1⟩, ⟨4, 10, 1⟩]

/-- Edited entries with the second instance of track 10 deleted. -/
def exMod2 : List PlaylistEntry := [⟨0, 10, 1⟩]

/-- A 112-byte PDB file: page size 64, one table (type 5, first page 1); the
page at offset 64 has small row count 1, one present row at offset 108. -/
def exBuf3 : ByteBuf :=
  [0, 0, 0, 0, 64, 0, 0, 0, 1, 0, 0, 0, 0, 0, 0, 0,
   0, 0, 0, 0, 0, 0, 0, 0, 0, 0, 0, 0, 5, 0, 0, 0,
   0, 0, 0, 0, 1, 0, 0, 0, 1, 0, 0, 0, 0, 0, 0, 0,
   0, 0, 0, 0, 0, 0, 0, 0, 0, 0, 0, 0, 0, 0, 0, 0,
   0, 0, 0, 0, 0, 0, 0, 0, 5, 0, 0, 0, 0, 0, 0, 0,
   0, 0, 0, 0, 1, 0, 0, 0, 0, 0, 0, 0, 0, 0, 0, 0,
   0, 0, 0, 0, 0, 0, 0, 0, 1, 0, 44, 0, 0, 0, 0, 0]

/-- Like `exBuf3` but the page header carries small row count 3 and large row
count 1 (so the "larger" count and the used count differ). -/
def exBuf5 : ByteBuf :=
  [0, 0, 0, 0, 64, 0, 0, 0, 1, 0, 0, 0, 0, 0, 0, 0,
   0, 0, 0, 0, 0, 0, 0, 0, 0, 0, 0, 0, 5, 0, 0, 0,
   0, 0, 0, 0, 1, 0, 0, 0, 1, 0, 0, 0, 0, 0, 0, 0,
   0, 0, 0, 0, 0, 0, 0, 0, 0, 0, 0, 0, 0, 0, 0, 0,
   0, 0, 0, 0, 0, 0, 0, 0, 5, 0, 0, 0, 0, 0, 0, 0,
   0, 0, 0, 0, 3, 0, 0, 0, 0, 0, 0, 0, 0, 0, 1, 0,
   0, 0, 0, 0, 0, 0, 0, 0, 1, 0, 44, 0, 0, 0, 0, 0]

/-! ## Spec-side string encodings

The following three `Prop`s are written from the specification's description
of the DeviceSQL string encodings (not from the source); they say that a
well-formed encoding of the string `s` sits at byte position `pos` of the
buffer.  They are compared with the source-translated
`readDeviceSqlString`. -/

/-- Little-endian UTF-16 encoding of a list of code units. -/
def utf16leEncode (units : List Nat) : ByteBuf :=
  units.flatMap (fun u => [u % 256, u / 256])

/-- Spec: tag `0x40` ("long ASCII"), next byte is the explicit length,
followed by that many single-byte (ASCII, hence `< 128`) characters. -/
def SpecLongAsciiAt (buf : ByteBuf) (pos : Nat) (s : JsString) : Prop :=
  ∃ A C chars : List Nat,
    buf = A ++ 0x40 :: chars.length :: (chars ++ C) ∧
    A.length = pos ∧ chars.length < 256 ∧
    (∀ c ∈ chars, c < 128) ∧ s = chars

/-- Spec: tag `0x90` ("long UTF-16"), next `u16` is the byte length,
followed by that many bytes of little-endian UTF-16 code units (surrogates
excluded so that decoding is the exact inverse). -/
def SpecLongUtf16At (buf : ByteBuf) (pos : Nat) (s : JsString) : Prop :=
  ∃ A C units : List Nat,
    buf = A ++ 0x90 :: (2 * units.length) % 256 :: (2 * units.length) / 256 ::
      (utf16leEncode units ++ C) ∧
    A.length = pos ∧ 2 * units.length < 65536 ∧
    (∀ u ∈ units, u < 65536 ∧ isHighSurrogate u = false ∧
      isLowSurrogate u = false) ∧
    s = units

/-- Spec: a short-ASCII tag whose low 6 bits equal the full byte (so
`tag < 64`); the character count is `tag / 2` and trailing NUL bytes are
stripped from the decoded characters. -/
def SpecShortAsciiAt (buf : ByteBuf) (pos : Nat) (s : JsString) : Prop :=
  ∃ A C : List Nat, ∃ tag : Nat, ∃ bytes : List Nat,
    buf = A ++ tag :: (bytes ++ C) ∧
    A.length = pos ∧ tag < 64 ∧ bytes.length = tag / 2 ∧
    (∀ b ∈ bytes, b < 128) ∧ s = stripTrailingNuls bytes

-- (spec-side encoding definitions are inserted below)

/-! ## Theorems -/

/-- C10: for every cursor state, each primitive read whose bounds check fails
returns its default value (0, or the empty byte array) and leaves the cursor
position unchanged, while a read whose bounds check succeeds advances the
position by exactly the read size. -/
theorem binaryReader_primitive_reads_bounds (r : BinaryReader) (n : Nat) :
    (r.canRead 1 = false → r.readU8 = (0, r)) ∧
    (r.canRead 1 = true → (r.readU8.2.pos = r.pos + 1 ∧ r.readU8.2.buf = r.buf)) ∧
    (r.canRead 2 = false → r.readU16 = (0, r)) ∧
    (r.canRead 2 = true → (r.readU16.2.pos = r.pos + 2 ∧ r.readU16.2.buf = r.buf)) ∧
    (r.canRead 4 = false → r.readU32 = (0, r)) ∧
    (r.canRead 4 = true → (r.readU32.2.pos = r.pos + 4 ∧ r.readU32.2.buf = r.buf)) ∧
    (r.canRead n = false → r.readBytes n = ([], r)) ∧
    (r.canRead n = true →
      (r.readBytes n).2.pos = r.pos + n ∧ (r.readBytes n).2.buf = r.buf) := by
  refine ⟨?_, ?_, ?_, ?_, ?_, ?_, ?_, ?_⟩ <;>
    intro h <;>
    simp [BinaryReader.readU8, BinaryReader.readU16, BinaryReader.readU32,
      BinaryReader.readBytes, h]

/-- Witness for C10 at a concrete reader: a 1-byte buffer at position 0 fails
the 3-byte read (default result, cursor unmoved) and succeeds the 1-byte read
(cursor advanced by 1). -/
theorem binaryReader_primitive_reads_bounds_witness :
    ((⟨[5], 0⟩ : BinaryReader).readBytes 3 = ([], (⟨[5], 0⟩ : BinaryReader))) ∧
    ((⟨[5], 0⟩ : BinaryReader).readU8.2.pos = 0 + 1 ∧
      (⟨[5], 0⟩ : BinaryReader).readU8.2.buf = [5]) :=
  ⟨(binaryReader_primitive_reads_bounds ⟨[5], 0⟩ 3).2.2.2.2.2.2.1 (by decide),
    (binaryReader_primitive_reads_bounds ⟨[5], 0⟩ 3).2.1 (by decide)⟩

/-! ### Generic helper lemmas -/

lemma lookup_mem {α : Type} {β : Type} [BEq α] [LawfulBEq α]
    {l : List (α × β)} {k : α} {v : β}
    (h : l.lookup k = some v) : (k, v) ∈ l := by
  induction l with
  | nil => simp [List.lookup] at h
  | cons kv rest ih =>
    obtain ⟨k1, v1⟩ := kv
    rw [List.lookup_cons] at h
    by_cases hk : (k == k1) = true
    · simp only [hk] at h
      obtain rfl : v1 = v := by simpa using h
      obtain rfl : k = k1 := eq_of_beq hk
      exact List.mem_cons_self _ _
    · simp only [Bool.not_eq_true] at hk
      simp only [hk] at h
      exact List.mem_cons_of_mem _ (ih h)

lemma foldl_fixed {α : Type} {β : Type} {f : β → α → β} {b : β} {l : List α}
    (h : ∀ a ∈ l, f b a = b) : l.foldl f b = b := by
  induction l with
  | nil => rfl
  | cons a rest ih =>
    rw [List.foldl_cons, h a (List.mem_cons_self _ _)]
    exact ih fun x hx => h x (List.mem_cons_of_mem _ hx)

lemma foldl_invariant {α : Type} {β : Type} (P : β → Prop) (f : β → α → β) :
    ∀ (l : List α) (b : β), P b →
      (∀ c a, a ∈ l → P c → P (f c a)) → P (l.foldl f b) := by
  intro l
  induction l with
  | nil => intro b hb _; exact hb
  | cons a rest ih =>
    intro b hb hstep
    rw [List.foldl_cons]
    exact ih _ (hstep b a (List.mem_cons_self _ _) hb)
      fun c x hx hc => hstep c x (List.mem_cons_of_mem _ hx) hc

lemma byteAt_set_ne {buf : ByteBuf} {j i : Nat} (hne : j ≠ i) (a : Nat) :
    byteAt (buf.set j a) i = byteAt buf i := by
  simp [byteAt, List.getD_eq_getElem?_getD, List.getElem?_set_ne hne]

/-- A write of a 4-byte field touches only the four bytes of that field. -/
lemma byteAt_setU32at_outside {buf : ByteBuf} {off i : Nat}
    (h : i < off ∨ off + 4 ≤ i) (v : Nat) :
    byteAt (setU32at buf off v) i = byteAt buf i := by
  unfold setU32at
  rw [byteAt_set_ne (by omega), byteAt_set_ne (by omega),
    byteAt_set_ne (by omega), byteAt_set_ne (by omega)]

lemma length_setU32at (buf : ByteBuf) (off v : Nat) :
    (setU32at buf off v).length = buf.length := by
  simp [setU32at]

/-! ### Soundness of the location scan -/

/-- Every binding recorded by the scan maps a key to an offset whose decoded
triple is that key. -/
lemma scanStep_locations_sound {buf : ByteBuf} {st : ScanState} {off : Nat}
    (h : ∀ kv ∈ st.locations, readTriple buf kv.2 = kv.1) :
    ∀ kv ∈ (scanStep buf st off).locations, readTriple buf kv.2 = kv.1 := by
  unfold scanStep
  split
  · exact h
  · split
    · intro kv hkv
      rcases List.mem_append.mp hkv with hl | hr
      · exact h kv hl
      · obtain rfl : kv = (readTriple buf off, off) := by simpa using hr
        rfl
    · exact h

lemma scanFold_locations_sound {buf : ByteBuf} :
    ∀ (offs : List Nat) (st : ScanState),
      (∀ kv ∈ st.locations, readTriple buf kv.2 = kv.1) →
      ∀ kv ∈ (offs.foldl (scanStep buf) st).locations,
        readTriple buf kv.2 = kv.1 := by
  intro offs
  induction offs with
  | nil => intro st h; exact h
  | cons o rest ih =>
    intro st h
    rw [List.foldl_cons]
    exact ih _ (scanStep_locations_sound h)

/-- Soundness of `findPlaylistEntriesByPattern`: each recorded location holds
exactly the `(playlistId, trackId, entryIndex)` triple of its key. -/
lemma locations_sound (buf : ByteBuf) (O : List PlaylistEntry) :
    ∀ kv ∈ findPlaylistEntriesByPattern buf O, readTriple buf kv.2 = kv.1 := by
  unfold findPlaylistEntriesByPattern
  exact scanFold_locations_sound _ _ (by intro kv hkv; simp at hkv)

/-! ### The instance-matching argument -/

lemma sorted_sortByEntryIndex (l : List PlaylistEntry) :
    (sortByEntryIndex l).Pairwise entryLe :=
  List.sorted_insertionSort entryLe l

lemma perm_sortByEntryIndex (l : List PlaylistEntry) :
    (sortByEntryIndex l).Perm l :=
  List.perm_insertionSort entryLe l

lemma pairwise_map_entryIndex {l : List PlaylistEntry}
    (h : l.Pairwise entryLe) :
    (l.map PlaylistEntry.entryIndex).Pairwise (· ≤ ·) := by
  rw [List.pairwise_map]
  exact h.imp fun hab => hab

/-- The central list identity behind the writer's instance matching: filtering
one playlist out of the edited list, sorting it, then filtering one track
yields entries with exactly the same `entryIndex` sequence as sorting the
entries filtered by playlist and track at once. -/
lemma map_entryIndex_filter_sort (O : List PlaylistEntry)
    (p t : PlaylistEntry → Bool) :
    ((sortByEntryIndex (O.filter p)).filter t).map PlaylistEntry.entryIndex =
      (sortByEntryIndex (O.filter fun x => p x && t x)).map
        PlaylistEntry.entryIndex := by
  apply List.eq_of_perm_of_sorted (r := ((· ≤ ·) : Nat → Nat → Prop))
  · apply List.Perm.map
    have h1 : ((sortByEntryIndex (O.filter p)).filter t).Perm
        ((O.filter p).filter t) :=
      List.Perm.filter t (perm_sortByEntryIndex _)
    have h2 : (O.filter p).filter t = O.filter fun x => p x && t x := by
      rw [List.filter_filter]
      exact List.filter_congr fun x _ => by rw [Bool.and_comm]
    have h3 : (O.filter fun x => p x && t x).Perm
        (sortByEntryIndex (O.filter fun x => p x && t x)) :=
      (perm_sortByEntryIndex _).symm
    exact (h1.trans (h2 ▸ h3))
  · exact pairwise_map_entryIndex
      ((sorted_sortByEntryIndex (O.filter p)).filter t)
  · exact pairwise_map_entryIndex
      (sorted_sortByEntryIndex (O.filter fun x => p x && t x))

/-- `modifiedSameTrack` of the unchanged list and `originalSameTrack` list
the same `entryIndex` values in the same order. -/
lemma modifiedSameTrack_self_map_entryIndex (E : List PlaylistEntry)
    (e : PlaylistEntry) :
    (modifiedSameTrack E e).map PlaylistEntry.entryIndex =
      (originalSameTrack E e).map PlaylistEntry.entryIndex := by
  unfold modifiedSameTrack originalSameTrack
  exact map_entryIndex_filter_sort E
    (fun x => x.playlistId == e.playlistId)
    (fun x => x.trackId == e.trackId)

lemma matchedModified_self_entryIndex (E : List PlaylistEntry)
    (e m : PlaylistEntry) (h : matchedModified E E e = some m) :
    m.entryIndex = e.entryIndex := by
  unfold matchedModified at h
  by_cases hemp : (E.filter fun x => x.playlistId == e.playlistId).isEmpty
  · rw [if_pos hemp] at h
    exact absurd h (by simp)
  · rw [if_neg hemp] at h
    by_cases hemp2 : (modifiedSameTrack E e).isEmpty
    · rw [if_pos hemp2] at h
      exact absurd h (by simp)
    · rw [if_neg hemp2] at h
      obtain ⟨hlt, hm⟩ := List.getElem?_eq_some_iff.mp h
      have hkey := modifiedSameTrack_self_map_entryIndex E e
      have hlen : (modifiedSameTrack E e).length =
          (originalSameTrack E e).length := by
        have := congrArg List.length hkey
        simpa using this
      have hlt2 : instanceIdx E e < (originalSameTrack E e).length :=
        hlen ▸ hlt
      have hv1 : ((modifiedSameTrack E e).map PlaylistEntry.entryIndex).getD
          (instanceIdx E e) 0 = m.entryIndex := by
        rw [List.getD_eq_getElem _ _ (by simpa using hlt), List.getElem_map]
        exact congrArg PlaylistEntry.entryIndex hm
      have hv2 : ((originalSameTrack E e).map PlaylistEntry.entryIndex).getD
          (instanceIdx E e) 0 = e.entryIndex := by
        rw [List.getD_eq_getElem _ _ (by simpa using hlt2), List.getElem_map]
        exact eq_of_beq (List.findIdx_getElem (w := hlt2))
      rw [← hv1, hkey]
      exact hv2

/-! ### C1, C2, C6 -/

/-- C1: for every byte buffer `b` and every entry list `E`, applying "no
changes" (`applyPlaylistModifications b E E`) returns a buffer byte-identical
to `b`: every located entry matches an edited entry with the same
`entryIndex`, so no ordinal field is overwritten. -/
theorem applyPlaylistModifications_no_changes (b : ByteBuf)
    (E : List PlaylistEntry) : applyPlaylistModifications b E E = b := by
  simp only [applyPlaylistModifications]
  apply foldl_fixed
  intro e he
  rcases hlk : (findPlaylistEntriesByPattern b E).lookup (entryKey e)
    with _ | off
  · simp [applyEntry, hlk]
  · rcases hm : matchedModified E E e with _ | m
    · simp [applyEntry, hlk, hm]
    · have hsound : readTriple b off = entryKey e :=
        locations_sound b E (entryKey e, off) (lookup_mem hlk)
      have hcur : readU32at b off = e.entryIndex := by
        have := congrArg (fun k : EntryKey => k.2.2) hsound
        simpa [readTriple, entryKey] using this
      have hidx : m.entryIndex = e.entryIndex :=
        matchedModified_self_entryIndex E e m hm
      simp [applyEntry, hlk, hm, hcur, hidx]

/-- C2: the writer's output always has the same length as the input, and every
byte outside the 4-byte little-endian ordinal fields at the offsets located
for the original entries is unchanged. -/
theorem applyPlaylistModifications_frame (b : ByteBuf)
    (O M : List PlaylistEntry) :
    (applyPlaylistModifications b O M).length = b.length ∧
    (∀ i : Nat,
      (∀ kv ∈ findPlaylistEntriesByPattern b O, i < kv.2 ∨ kv.2 + 4 ≤ i) →
      byteAt (applyPlaylistModifications b O M) i = byteAt b i) := by
  simp only [applyPlaylistModifications]
  apply foldl_invariant
    (fun c : ByteBuf => c.length = b.length ∧
      ∀ i : Nat,
        (∀ kv ∈ findPlaylistEntriesByPattern b O, i < kv.2 ∨ kv.2 + 4 ≤ i) →
        byteAt c i = byteAt b i)
    (applyEntry O M (findPlaylistEntriesByPattern b O)) O b
    ⟨rfl, fun _ _ => rfl⟩
  intro c e he hc
  rcases hlk : (findPlaylistEntriesByPattern b O).lookup (entryKey e)
    with _ | off
  · simpa [applyEntry, hlk] using hc
  · rcases hm : matchedModified O M e with _ | m
    · simpa [applyEntry, hlk, hm] using hc
    · simp only [applyEntry, hlk, hm]
      split
      · constructor
        · rw [length_setU32at]; exact hc.1
        · intro i hi
          have hmem : (entryKey e, off) ∈
              findPlaylistEntriesByPattern b O := lookup_mem hlk
          have houtside : i < off ∨ off + 4 ≤ i := hi _ hmem
          rw [byteAt_setU32at_outside houtside]
          exact hc.2 i hi
      · exact hc

lemma get_idx_congr {α : Type} (l : List α) (i j : Nat)
    (hi : i < l.length) (hj : j < l.length) (h : i = j) :
    l.get ⟨i, hi⟩ = l.get ⟨j, hj⟩ := by
  subst h
  rfl

/-- C6: with `entryIndex` unique per playlist, two distinct located original
entries sharing `(playlistId, trackId)` always get distinct instance
positions (so they are never both matched to the same edited-entry position),
and an original instance whose instance position has no edited entry is
skipped, leaving the working buffer untouched. -/
theorem writer_duplicate_instances_distinct (b : ByteBuf)
    (O M : List PlaylistEntry)
    (uniq : ∀ a ∈ O, ∀ c ∈ O, a.playlistId = c.playlistId →
      a.entryIndex = c.entryIndex → a = c)
    (e1 e2 : PlaylistEntry) (h1 : e1 ∈ O) (h2 : e2 ∈ O) (hne : e1 ≠ e2)
    (hp : e1.playlistId = e2.playlistId) (ht : e1.trackId = e2.trackId)
    (hl1 : (findPlaylistEntriesByPattern b O).lookup (entryKey e1) ≠ none)
    (hl2 : (findPlaylistEntriesByPattern b O).lookup (entryKey e2) ≠ none) :
    instanceIdx O e1 ≠ instanceIdx O e2 ∧
    (∀ buf : ByteBuf, matchedModified O M e1 = none →
      applyEntry O M (findPlaylistEntriesByPattern b O) buf e1 = buf) := by
  constructor
  · have hsame : originalSameTrack O e2 = originalSameTrack O e1 := by
      unfold originalSameTrack
      rw [hp, ht]
    have hmem1 : e1 ∈ originalSameTrack O e1 := by
      unfold originalSameTrack
      exact (perm_sortByEntryIndex _).mem_iff.mpr
        (List.mem_filter.mpr ⟨h1, by simp⟩)
    have hmem2 : e2 ∈ originalSameTrack O e1 := by
      unfold originalSameTrack
      exact (perm_sortByEntryIndex _).mem_iff.mpr
        (List.mem_filter.mpr ⟨h2, by simp [hp, ht]⟩)
    have hlt1 : instanceIdx O e1 < (originalSameTrack O e1).length := by
      unfold instanceIdx
      exact List.findIdx_lt_length.mpr ⟨e1, hmem1, by simp⟩
    have hlt2 : instanceIdx O e2 < (originalSameTrack O e1).length := by
      unfold instanceIdx
      rw [hsame]
      exact List.findIdx_lt_length.mpr ⟨e2, hmem2, by simp⟩
    intro heq
    have hfi1 : ((originalSameTrack O e1).get
        ⟨instanceIdx O e1, hlt1⟩).entryIndex == e1.entryIndex := by
      have h2 := List.findIdx_getElem (w := hlt1)
      simpa [List.get_eq_getElem] using h2
    have hfi2 : ((originalSameTrack O e1).get
        ⟨instanceIdx O e2, hlt2⟩).entryIndex == e2.entryIndex := by
      have h2 := List.findIdx_getElem (w := hsame ▸ hlt2)
      simpa [List.get_eq_getElem, instanceIdx, hsame] using h2
    have hidx : e1.entryIndex = e2.entryIndex := by
      have a1 : ((originalSameTrack O e1).get
          ⟨instanceIdx O e1, hlt1⟩).entryIndex = e1.entryIndex :=
        eq_of_beq hfi1
      have a2 : ((originalSameTrack O e1).get
          ⟨instanceIdx O e2, hlt2⟩).entryIndex = e2.entryIndex :=
        eq_of_beq hfi2
      have hg : (originalSameTrack O e1).get ⟨instanceIdx O e1, hlt1⟩ =
          (originalSameTrack O e1).get ⟨instanceIdx O e2, hlt2⟩ :=
        get_idx_congr _ _ _ hlt1 hlt2 heq
      rw [← a1, ← a2, hg]
    exact hne (uniq e1 h1 e2 h2 hp hidx)
  · intro buf hnone
    simp only [applyEntry, hnone]
    cases (findPlaylistEntriesByPattern b O).lookup (entryKey e1) <;> rfl

/-- Witness for C2 on a concrete reorder: the output buffer keeps its length
and byte 36 (outside every located 4-byte ordinal field) is unchanged. -/
theorem applyPlaylistModifications_frame_witness :
    (applyPlaylistModifications exBuf1 exOrig1 exMod1).length =
      exBuf1.length ∧
    byteAt (applyPlaylistModifications exBuf1 exOrig1 exMod1) 36 =
      byteAt exBuf1 36 :=
  ⟨(applyPlaylistModifications_frame exBuf1 exOrig1 exMod1).1,
   (applyPlaylistModifications_frame exBuf1 exOrig1 exMod1).2 36 (by decide)⟩

/-- Witness for C6 on a concrete duplicate-track playlist: the two instances
get distinct instance positions, and the deleted second instance leaves the
buffer untouched. -/
theorem writer_duplicate_instances_distinct_witness :
    instanceIdx exOrig2 ⟨4, 10, 1⟩ ≠ instanceIdx exOrig2 ⟨0, 10, 1⟩ ∧
    applyEntry exOrig2 exMod2 (findPlaylistEntriesByPattern exBuf2 exOrig2)
      exBuf2 ⟨4, 10, 1⟩ = exBuf2 := by
  have h := writer_duplicate_instances_distinct exBuf2 exOrig2 exMod2
    (by decide) ⟨4, 10, 1⟩ ⟨0, 10, 1⟩ (by decide) (by decide) (by decide)
    (by decide) (by decide) (by decide) (by decide)
  exact ⟨h.1, h.2 exBuf2 (by decide)⟩

/-! ### Parser: totality and worst-case emptiness (C3) -/

lemma readU32_snd_buf (r : BinaryReader) : r.readU32.2.buf = r.buf := by
  unfold BinaryReader.readU32
  split <;> rfl

lemma readU32_fst_oob (r : BinaryReader) (h : r.length < r.pos + 4) :
    r.readU32.1 = 0 := by
  have hc : r.canRead 4 = false := by
    simp only [BinaryReader.canRead, decide_eq_false_iff_not]
    omega
  simp [BinaryReader.readU32, hc]

lemma parseHeaderLoop_zero (r : BinaryReader)
    (tables : List (Nat × TablePointer)) : parseHeaderLoop r tables 0 = tables :=
  rfl

/-- On a buffer shorter than 12 bytes the table-count read fails, so the
directory is empty. -/
lemma mkPDBParser_tables_short (buf : ByteBuf) (h : buf.length < 12) :
    (mkPDBParser buf).tables = [] := by
  have hnum : ((((⟨buf, 0⟩ : BinaryReader).seek 4).readU32.2).seek 8).readU32.1
      = 0 := by
    apply readU32_fst_oob
    show BinaryReader.length _ < _
    simp only [BinaryReader.length, BinaryReader.seek]
    rw [readU32_snd_buf]
    simpa using by omega
  show parseHeaderLoop _ [] _ = []
  rw [hnum]
  rfl

lemma iterateTableRows_no_tables (P : PDBParser) (hP : P.tables = [])
    (tableType : Nat) : iterateTableRows P tableType = [] := by
  unfold iterateTableRows
  rw [hP]
  rfl

/-- C3: `new PDBParser(buffer).parse()` always returns a database — in this
embedding every operation involved is a total function, mirroring the
source's bounds-checked reads, never-throwing decoders and per-row/per-table
`try`/`catch` — and in the worst case (here: any buffer too short to hold the
table count) every entity map and the playlist-entry list are empty. -/
theorem parse_total_worst_case_empty (buf : ByteBuf) :
    ∃ db : RekordboxDatabase, (mkPDBParser buf).parse = db ∧
      (buf.length < 12 → db = emptyDatabase) := by
  refine ⟨(mkPDBParser buf).parse, rfl, fun h => ?_⟩
  have htab := mkPDBParser_tables_short buf h
  have hiter := iterateTableRows_no_tables (mkPDBParser buf) htab
  unfold PDBParser.parse
  simp only [hiter, List.foldl_nil]
  rfl

/-- Witness for C3: parsing a 1-byte buffer yields the all-empty database. -/
theorem parse_total_worst_case_empty_witness :
    (mkPDBParser [0]).parse = emptyDatabase := by
  obtain ⟨db, hdb, himp⟩ := parse_total_worst_case_empty [0]
  rw [hdb, himp (by decide)]

/-! ### Parser: page-walker soundness (C4) and boundedness (C9) -/

/-- Every pair yielded by the row loop carries the page offset, an offset
strictly inside the buffer, and stems from a slot whose bitmap bit is set. -/
lemma rowLoop_sound (buf : ByteBuf) (po bo rs : Nat) :
    ∀ (rem start : Nat), ∀ y ∈ rowLoop buf po bo rs start rem,
      y.2 = po ∧ 0 < y.1 ∧ y.1 < buf.length ∧
      ∃ i, start ≤ i ∧ i < start + rem ∧
        bo + i / 8 < buf.length ∧
        (byteAt buf (bo + i / 8)).testBit (i % 8) = true ∧
        y.1 = po + readU16at buf (rs + i * 2) := by
  intro rem
  induction rem with
  | zero =>
    intro start y hy
    simp [rowLoop] at hy
  | succ n ih =>
    intro start y hy
    unfold rowLoop at hy
    split at hy
    · simp at hy
    · rename_i hbm
      split at hy
      · rename_i hbit
        split at hy
        · simp at hy
        · split at hy
          · rename_i hval
            rcases List.mem_cons.mp hy with rfl | htail
            · refine ⟨rfl, hval.1, hval.2, start, le_refl _, by omega,
                by omega, hbit, rfl⟩
            · obtain ⟨h1, h2, h3, i, hi1, hi2, hi3, hi4, hi5⟩ :=
                ih (start + 1) y htail
              exact ⟨h1, h2, h3, i, by omega, by omega, hi3, hi4, hi5⟩
          · obtain ⟨h1, h2, h3, i, hi1, hi2, hi3, hi4, hi5⟩ :=
              ih (start + 1) y hy
            exact ⟨h1, h2, h3, i, by omega, by omega, hi3, hi4, hi5⟩
      · obtain ⟨h1, h2, h3, i, hi1, hi2, hi3, hi4, hi5⟩ :=
          ih (start + 1) y hy
        exact ⟨h1, h2, h3, i, by omega, by omega, hi3, hi4, hi5⟩

/-- Every visited page's yields are either empty (row-count ceiling) or the
row loop over that page's slots. -/
lemma walkPages_yields_shape (buf : ByteBuf) (ps : Nat) :
    ∀ (fuel p : Nat), ∀ rec ∈ walkPages buf ps p fuel,
      rec.yields = [] ∨
      rec.yields = rowLoop buf rec.pageOffset (rec.pageOffset + 40)
        (rec.pageOffset + 40 + paddedBitmapSize rec.numRows) 0 rec.numRows := by
  intro fuel
  induction fuel with
  | zero =>
    intro p rec h
    simp [walkPages] at h
  | succ n ih =>
    intro p rec h
    unfold walkPages at h
    split at h
    · simp at h
    · split at h
      · simp at h
      · rename_i header hheq
        rcases List.mem_cons.mp h with rfl | htail
        · by_cases hsel : selectNumRows header > 10000
          · left
            simp [hsel]
          · right
            simp [hsel]
        · exact ih _ rec htail

/-- C4: every offset yielded by `iterateTableRows` is strictly positive,
strictly below the buffer length, and comes from a row slot of the visited
page whose bit is set in that page's row-presence bitmap (the slot's `u16`
row offset sits after the padded bitmap). -/
theorem iterateTableRows_offsets_sound (buf : ByteBuf) (tableType : Nat)
    (y : Nat × Nat) (hy : y ∈ iterateTableRows (mkPDBParser buf) tableType) :
    0 < y.1 ∧ y.1 < buf.length ∧
    ∃ numRows i, i < numRows ∧
      y.2 + 40 + i / 8 < buf.length ∧
      (byteAt buf (y.2 + 40 + i / 8)).testBit (i % 8) = true ∧
      y.1 = y.2 + readU16at buf
        (y.2 + 40 + paddedBitmapSize numRows + i * 2) := by
  unfold iterateTableRows at hy
  split at hy
  · simp at hy
  · obtain ⟨rec, hrec, hyrec⟩ := List.mem_flatMap.mp hy
    have hbuf : (mkPDBParser buf).buf = buf := rfl
    rcases walkPages_yields_shape (mkPDBParser buf).buf
        (mkPDBParser buf).pageSize _ _ rec hrec with hnil | hshape
    · rw [hnil] at hyrec
      simp at hyrec
    · rw [hshape, hbuf] at hyrec
      obtain ⟨hpo, h0, hlen, i, hi1, hi2, hi3, hi4, hi5⟩ :=
        rowLoop_sound buf rec.pageOffset (rec.pageOffset + 40)
          (rec.pageOffset + 40 + paddedBitmapSize rec.numRows)
          rec.numRows 0 y hyrec
      exact ⟨h0, hlen, rec.numRows, i, by omega, by rw [hpo]; exact hi3,
        by rw [hpo]; exact hi4, by rw [hpo]; exact hi5⟩

set_option maxRecDepth 100000 in
/-- Witness for C4: on `exBuf3` the walker yields offset 108 on the page at
offset 64, from slot 0 whose bitmap bit is set. -/
theorem iterateTableRows_offsets_sound_witness :
    0 < (108 : Nat) ∧ 108 < exBuf3.length ∧
    ∃ numRows i, i < numRows ∧
      64 + 40 + i / 8 < exBuf3.length ∧
      (byteAt exBuf3 (64 + 40 + i / 8)).testBit (i % 8) = true ∧
      108 = 64 + readU16at exBuf3
        (64 + 40 + paddedBitmapSize numRows + i * 2) :=
  iterateTableRows_offsets_sound exBuf3 5 (108, 64) (by decide)

lemma walkPages_length_le (buf : ByteBuf) (ps : Nat) :
    ∀ (fuel p : Nat), (walkPages buf ps p fuel).length ≤ fuel := by
  intro fuel
  induction fuel with
  | zero =>
    intro p
    simp [walkPages]
  | succ n ih =>
    intro p
    unfold walkPages
    split
    · simp
    · split
      · simp
      · simpa using ih _

lemma walkPages_page_zero (buf : ByteBuf) (ps fuel : Nat) :
    walkPages buf ps 0 fuel = [] := by
  cases fuel <;> simp [walkPages]

lemma rowLoop_length_le (buf : ByteBuf) (po bo rs : Nat) :
    ∀ (rem start : Nat), (rowLoop buf po bo rs start rem).length ≤ rem := by
  intro rem
  induction rem with
  | zero =>
    intro start
    simp [rowLoop]
  | succ n ih =>
    intro start
    unfold rowLoop
    split
    · simp
    · split
      · split
        · simp
        · split
          · simpa using ih (start + 1)
          · exact le_trans (ih (start + 1)) (by omega)
      · exact le_trans (ih (start + 1)) (by omega)

/-- C9: the page walk terminates on every input: it visits at most
`maxPages` (100,000) pages, stops immediately at page index 0, and each
visited page yields at most its selected row count. -/
theorem pageWalk_bounded (buf : ByteBuf) (ps p : Nat) :
    (walkPages buf ps p maxPages).length ≤ maxPages ∧
    (∀ fuel, walkPages buf ps 0 fuel = []) ∧
    (∀ rec ∈ walkPages buf ps p maxPages,
      rec.yields.length ≤ rec.numRows) := by
  refine ⟨walkPages_length_le buf ps maxPages p,
    fun fuel => walkPages_page_zero buf ps fuel, fun rec hrec => ?_⟩
  rcases walkPages_yields_shape buf ps maxPages p rec hrec with hnil | hshape
  · simp [hnil]
  · rw [hshape]
    exact rowLoop_length_le buf rec.pageOffset (rec.pageOffset + 40)
      (rec.pageOffset + 40 + paddedBitmapSize rec.numRows) rec.numRows 0

/-- Witness for C9 on `exBuf3`: bound on visited pages, the page-0 stop, and
the per-page yield bound at the concrete visited page. -/
theorem pageWalk_bounded_witness :
    (walkPages exBuf3 64 1 maxPages).length ≤ maxPages ∧
    walkPages exBuf3 64 0 5 = [] ∧
    (PageRec.mk 1 64 1 [(108, 64)]).yields.length ≤
      (PageRec.mk 1 64 1 [(108, 64)]).numRows :=
  ⟨(pageWalk_bounded exBuf3 64 1).1,
   (pageWalk_bounded exBuf3 64 1).2.1 5,
   (pageWalk_bounded exBuf3 64 1).2.2 (PageRec.mk 1 64 1 [(108, 64)])
     (by decide)⟩

/-! ### Parser: row-count selection (C5) -/

lemma readU32_state (buf : ByteBuf) (i : Nat) (h : i + 4 ≤ buf.length) :
    (BinaryReader.mk buf i).readU32 =
      (readU32at buf i, BinaryReader.mk buf (i + 4)) := by
  simp [BinaryReader.readU32, BinaryReader.canRead, BinaryReader.length, h]

lemma readU16_state (buf : ByteBuf) (i : Nat) (h : i + 2 ≤ buf.length) :
    (BinaryReader.mk buf i).readU16 =
      (readU16at buf i, BinaryReader.mk buf (i + 2)) := by
  simp [BinaryReader.readU16, BinaryReader.canRead, BinaryReader.length, h]

lemma readU8_state (buf : ByteBuf) (i : Nat) (h : i + 1 ≤ buf.length) :
    (BinaryReader.mk buf i).readU8 =
      (byteAt buf i, BinaryReader.mk buf (i + 1)) := by
  simp [BinaryReader.readU8, BinaryReader.canRead, BinaryReader.length, h]

/-- When the 40-byte header fits, `parsePageHeader` reads exactly the header
fields documented in the binary layout: small row count at page offset +20,
large row count at +30, next page pointer at +12, and so on. -/
lemma parsePageHeader_bytes (buf : ByteBuf) (ps p : Nat)
    (hfit : p * ps + 40 ≤ buf.length) :
    parsePageHeader buf ps p = some
      { pageIndex := p, type := readU32at buf (p * ps + 8),
        nextPage := readU32at buf (p * ps + 12),
        numRowsSmall := byteAt buf (p * ps + 20),
        numRowsLarge := readU16at buf (p * ps + 30),
        freeSize := readU16at buf (p * ps + 24),
        usedSize := readU16at buf (p * ps + 26),
        firstRowIndex := 0,
        firstRowOffset := readU16at buf (p * ps + 36),
        heapOffset := p * ps + 40 } := by
  have hgen : ∀ po, po + 40 ≤ buf.length →
      (if po + 40 > buf.length then (none : Option PageHeader)
       else
        let r0 : BinaryReader := ⟨buf, po⟩
        let r1 := r0.readU32.2
        let r2 := r1.readU32.2
        let type := r2.readU32.1
        let r3 := r2.readU32.2
        let nextPage := r3.readU32.1
        let r4 := r3.readU32.2
        let r5 := r4.readU32.2
        let r6 := r5.seek (po + 20)
        let numRowsSmall := r6.readU8.1
        let r7 := r6.readU8.2
        let r8 := r7.readU8.2
        let r9 := r8.readU8.2
        let r10 := r9.readU8.2
        let freeSize := r10.readU16.1
        let r11 := r10.readU16.2
        let usedSize := r11.readU16.1
        let r12 := r11.readU16.2
        let r13 := r12.readU16.2
        let numRowsLarge := r13.readU16.1
        let r14 := r13.readU16.2
        let r15 := r14.readU16.2
        let r16 := r15.readU16.2
        let firstRowOffset := r16.readU16.1
        some { pageIndex := p, type := type, nextPage := nextPage,
               numRowsSmall := numRowsSmall, numRowsLarge := numRowsLarge,
               freeSize := freeSize, usedSize := usedSize, firstRowIndex := 0,
               firstRowOffset := firstRowOffset, heapOffset := po + 40 }) =
      some
      { pageIndex := p, type := readU32at buf (po + 8),
        nextPage := readU32at buf (po + 12),
        numRowsSmall := byteAt buf (po + 20),
        numRowsLarge := readU16at buf (po + 30),
        freeSize := readU16at buf (po + 24),
        usedSize := readU16at buf (po + 26),
        firstRowIndex := 0,
        firstRowOffset := readU16at buf (po + 36),
        heapOffset := po + 40 } := by
    intro po hpo
    rw [if_neg (by omega)]
    simp only [BinaryReader.seek,
      readU32_state buf po (by omega),
      readU32_state buf (po + 4) (by omega),
      readU32_state buf (po + 4 + 4) (by omega),
      readU32_state buf (po + 4 + 4 + 4) (by omega),
      readU32_state buf (po + 4 + 4 + 4 + 4) (by omega),
      readU8_state buf (po + 20) (by omega),
      readU8_state buf (po + 20 + 1) (by omega),
      readU8_state buf (po + 20 + 1 + 1) (by omega),
      readU8_state buf (po + 20 + 1 + 1 + 1) (by omega),
      readU8_state buf (po + 20 + 1 + 1 + 1 + 1) (by omega),
      readU16_state buf (po + 20 + 1 + 1 + 1 + 1) (by omega),
      readU16_state buf (po + 20 + 1 + 1 + 1 + 1 + 2) (by omega),
      readU16_state buf (po + 20 + 1 + 1 + 1 + 1 + 2 + 2) (by omega),
      readU16_state buf (po + 20 + 1 + 1 + 1 + 1 + 2 + 2 + 2) (by omega),
      readU16_state buf (po + 20 + 1 + 1 + 1 + 1 + 2 + 2 + 2 + 2)
        (by omega),
      readU16_state buf (po + 20 + 1 + 1 + 1 + 1 + 2 + 2 + 2 + 2 + 2)
        (by omega),
      readU16_state buf (po + 20 + 1 + 1 + 1 + 1 + 2 + 2 + 2 + 2 + 2 + 2)
        (by omega)]
  exact hgen (p * ps) hfit

/-- The amended C5: for every page whose 40-byte header fits, the walker's
selected row count is the 16-bit large count at page offset +30 when that is
positive and the 8-bit small count at +20 otherwise; if it exceeds 10,000 the
visited page yields no rows, and either way the walk continues at the page's
`nextPage` pointer (offset +12). -/
theorem walker_count_selection (buf : ByteBuf) (ps p fuel : Nat)
    (hp : p ≠ 0) (hfit : p * ps + 40 ≤ buf.length) :
    walkPages buf ps p (fuel + 1) =
      { page := p, pageOffset := p * ps,
        numRows := if readU16at buf (p * ps + 30) > 0
          then readU16at buf (p * ps + 30) else byteAt buf (p * ps + 20),
        yields := if (if readU16at buf (p * ps + 30) > 0
              then readU16at buf (p * ps + 30)
              else byteAt buf (p * ps + 20)) > 10000
          then []
          else rowLoop buf (p * ps) (p * ps + 40)
            (p * ps + 40 + paddedBitmapSize
              (if readU16at buf (p * ps + 30) > 0
                then readU16at buf (p * ps + 30)
                else byteAt buf (p * ps + 20)))
            0 (if readU16at buf (p * ps + 30) > 0
                then readU16at buf (p * ps + 30)
                else byteAt buf (p * ps + 20)) } ::
      walkPages buf ps (readU32at buf (p * ps + 12)) fuel := by
  conv_lhs => unfold walkPages
  rw [if_neg hp, parsePageHeader_bytes buf ps p hfit]
  simp [selectNumRows]

/-- Counterexample to C5 as stated: on `exBuf5` the visited page's header
has small row count 3 and large row count 1 — both far below the sanity
ceiling, so both "semantically valid" — yet the walker uses 1, not the
larger count 3. -/
theorem walker_count_selection_counterexample :
    (walkPages exBuf5 64 1 maxPages).map PageRec.numRows = [1] ∧
    byteAt exBuf5 (1 * 64 + 20) = 3 ∧
    readU16at exBuf5 (1 * 64 + 30) = 1 ∧
    (1 : Nat) ≠ max 3 1 := by
  refine ⟨?_, by decide, by decide, by decide⟩
  decide

set_option maxRecDepth 100000 in
/-- Witness for the amended C5 on `exBuf5`: the walker's one visited page
uses row count 1 (the positive large count) and continues at page 0. -/
theorem walker_count_selection_witness :
    walkPages exBuf5 64 1 (99999 + 1) =
      PageRec.mk 1 64 1 [(108, 64)] :: walkPages exBuf5 64 0 99999 := by
  rw [walker_count_selection exBuf5 64 1 99999 (by decide) (by decide)]
  decide

-- (parser theorems are appended below)

/-! ### String decoder: evaluation and correctness (C7, C8) -/

lemma byteAt_append_at (A l : List Nat) (k : Nat) :
    byteAt (A ++ l) (A.length + k) = byteAt l k := by
  unfold byteAt
  rw [List.getD_append_right _ _ _ _ (by omega)]
  congr 1
  omega

lemma readU8_state_oob (buf : ByteBuf) (i : Nat) (h : buf.length < i + 1) :
    (BinaryReader.mk buf i).readU8 = (0, BinaryReader.mk buf i) := by
  have hc : (BinaryReader.mk buf i).canRead 1 = false := by
    simp only [BinaryReader.canRead, BinaryReader.length,
      decide_eq_false_iff_not]
    omega
  simp [BinaryReader.readU8, hc]

lemma readU16_state_oob (buf : ByteBuf) (i : Nat) (h : buf.length < i + 2) :
    (BinaryReader.mk buf i).readU16 = (0, BinaryReader.mk buf i) := by
  have hc : (BinaryReader.mk buf i).canRead 2 = false := by
    simp only [BinaryReader.canRead, BinaryReader.length,
      decide_eq_false_iff_not]
    omega
  simp [BinaryReader.readU16, hc]

lemma readBytes_state (buf : ByteBuf) (i n : Nat) (h : i + n ≤ buf.length) :
    (BinaryReader.mk buf i).readBytes n =
      ((buf.drop i).take n, BinaryReader.mk buf (i + n)) := by
  simp [BinaryReader.readBytes, BinaryReader.canRead, BinaryReader.length, h]

/-- C8: `readDeviceSqlString` yields the empty string on every failure path:
a zero `relativeOffset`, a tag position at or beyond the buffer end, and a
failed length/bounds check on each of the four encoding paths (for the
fallback form this includes the guard on the computed count
`(tag - 1) / 2 - 1` being 0 — the `Nat` form of JS `<= 0` — or above 127). -/
theorem readDeviceSqlString_failures_empty (buf : ByteBuf)
    (pos base rel : Nat) :
    (rel = 0 → BinaryReader.readDeviceSqlString ⟨buf, pos⟩ base rel = []) ∧
    (buf.length ≤ base + rel →
      BinaryReader.readDeviceSqlString ⟨buf, pos⟩ base rel = []) ∧
    (base + rel < buf.length → byteAt buf (base + rel) = 0x40 →
      buf.length < base + rel + 1 + 1 + byteAt buf (base + rel + 1) →
      BinaryReader.readDeviceSqlString ⟨buf, pos⟩ base rel = []) ∧
    (base + rel < buf.length → byteAt buf (base + rel) = 0x90 →
      buf.length < base + rel + 1 + 2 + readU16at buf (base + rel + 1) →
      BinaryReader.readDeviceSqlString ⟨buf, pos⟩ base rel = []) ∧
    (base + rel < buf.length → byteAt buf (base + rel) < 64 →
      buf.length < base + rel + 1 + byteAt buf (base + rel) / 2 →
      BinaryReader.readDeviceSqlString ⟨buf, pos⟩ base rel = []) ∧
    (base + rel < buf.length → 64 < byteAt buf (base + rel) →
      byteAt buf (base + rel) ≠ 0x90 →
      ((byteAt buf (base + rel) - 1) / 2 - 1 = 0 ∨
        127 < (byteAt buf (base + rel) - 1) / 2 - 1 ∨
        buf.length < base + rel + 1 + ((byteAt buf (base + rel) - 1) / 2 - 1)) →
      BinaryReader.readDeviceSqlString ⟨buf, pos⟩ base rel = []) := by
  refine ⟨?_, ?_, ?_, ?_, ?_, ?_⟩
  · intro h
    simp only [BinaryReader.readDeviceSqlString]
    rw [if_pos h]
  · intro h
    by_cases h0 : rel = 0
    · simp only [BinaryReader.readDeviceSqlString]
      rw [if_pos h0]
    · simp only [BinaryReader.readDeviceSqlString]
      rw [if_neg h0, if_pos (show base + rel ≥
        (⟨buf, pos⟩ : BinaryReader).length from h)]
  · intro hsp htag hov
    by_cases h0 : rel = 0
    · simp only [BinaryReader.readDeviceSqlString]
      rw [if_pos h0]
    · simp only [BinaryReader.readDeviceSqlString]
      rw [if_neg h0, if_neg (show ¬ base + rel ≥
        (⟨buf, pos⟩ : BinaryReader).length from by
          simp only [BinaryReader.length, ge_iff_le, not_le]
          exact hsp)]
      simp only [BinaryReader.seek, readU8_state buf (base + rel) (by omega)]
      rw [if_pos htag]
      by_cases hb : base + rel + 1 + 1 ≤ buf.length
      · simp only [readU8_state buf (base + rel + 1) (by omega)]
        have hcr : (⟨buf, base + rel + 1 + 1⟩ : BinaryReader).canRead
            (byteAt buf (base + rel + 1)) = false := by
          simp only [BinaryReader.canRead, BinaryReader.length,
            decide_eq_false_iff_not]
          omega
        simp [hcr]
      · simp only [readU8_state_oob buf (base + rel + 1) (by omega)]
        simp
  · intro hsp htag hov
    by_cases h0 : rel = 0
    · simp only [BinaryReader.readDeviceSqlString]
      rw [if_pos h0]
    · simp only [BinaryReader.readDeviceSqlString]
      rw [if_neg h0, if_neg (show ¬ base + rel ≥
        (⟨buf, pos⟩ : BinaryReader).length from by
          simp only [BinaryReader.length, ge_iff_le, not_le]
          exact hsp)]
      simp only [BinaryReader.seek, readU8_state buf (base + rel) (by omega)]
      rw [if_neg (by rw [htag]; omega), if_pos htag]
      by_cases hb : base + rel + 1 + 2 ≤ buf.length
      · simp only [readU16_state buf (base + rel + 1) (by omega)]
        have hcr : (⟨buf, base + rel + 1 + 2⟩ : BinaryReader).canRead
            (readU16at buf (base + rel + 1)) = false := by
          simp only [BinaryReader.canRead, BinaryReader.length,
            decide_eq_false_iff_not]
          omega
        simp [hcr]
      · simp only [readU16_state_oob buf (base + rel + 1) (by omega)]
        simp
  · intro hsp htag hov
    by_cases h0 : rel = 0
    · simp only [BinaryReader.readDeviceSqlString]
      rw [if_pos h0]
    · simp only [BinaryReader.readDeviceSqlString]
      rw [if_neg h0, if_neg (show ¬ base + rel ≥
        (⟨buf, pos⟩ : BinaryReader).length from by
          simp only [BinaryReader.length, ge_iff_le, not_le]
          exact hsp)]
      simp only [BinaryReader.seek, readU8_state buf (base + rel) (by omega)]
      rw [if_neg (by omega), if_neg (by omega),
        if_pos (Nat.mod_eq_of_lt htag)]
      have hcr : (⟨buf, base + rel + 1⟩ : BinaryReader).canRead
          (byteAt buf (base + rel) / 2) = false := by
        simp only [BinaryReader.canRead, BinaryReader.length,
          decide_eq_false_iff_not]
        omega
      simp [hcr]
  · intro hsp htag hne hdis
    by_cases h0 : rel = 0
    · simp only [BinaryReader.readDeviceSqlString]
      rw [if_pos h0]
    · simp only [BinaryReader.readDeviceSqlString]
      rw [if_neg h0, if_neg (show ¬ base + rel ≥
        (⟨buf, pos⟩ : BinaryReader).length from by
          simp only [BinaryReader.length, ge_iff_le, not_le]
          exact hsp)]
      simp only [BinaryReader.seek, readU8_state buf (base + rel) (by omega)]
      have hmod : byteAt buf (base + rel) % 64 < 64 :=
        Nat.mod_lt _ (by omega)
      rw [if_neg (by omega), if_neg hne, if_neg (by omega)]
      rcases hdis with h | h | h
      · simp [h]
      · have hd : decide (127 < (byteAt buf (base + rel) - 1) / 2 - 1)
            = true := decide_eq_true h
        simp [hd]
      · have hcr : (⟨buf, base + rel + 1⟩ : BinaryReader).canRead
            ((byteAt buf (base + rel) - 1) / 2 - 1) = false := by
          simp only [BinaryReader.canRead, BinaryReader.length,
            decide_eq_false_iff_not]
          omega
        simp [hcr]

/-- Witness for C8: one concrete buffer per failure path, each decoding to
the empty string. -/
theorem readDeviceSqlString_failures_empty_witness :
    BinaryReader.readDeviceSqlString ⟨[5], 0⟩ 0 0 = [] ∧
    BinaryReader.readDeviceSqlString ⟨[1, 2], 0⟩ 1 5 = [] ∧
    BinaryReader.readDeviceSqlString ⟨[0, 0x40, 5], 0⟩ 0 1 = [] ∧
    BinaryReader.readDeviceSqlString ⟨[0, 0x90, 1, 0], 0⟩ 0 1 = [] ∧
    BinaryReader.readDeviceSqlString ⟨[0, 6, 65], 0⟩ 0 1 = [] ∧
    BinaryReader.readDeviceSqlString ⟨[0, 65], 0⟩ 0 1 = [] :=
  ⟨(readDeviceSqlString_failures_empty [5] 0 0 0).1 rfl,
   (readDeviceSqlString_failures_empty [1, 2] 0 1 5).2.1 (by decide),
   (readDeviceSqlString_failures_empty [0, 0x40, 5] 0 0 1).2.2.1
     (by decide) (by decide) (by decide),
   (readDeviceSqlString_failures_empty [0, 0x90, 1, 0] 0 0 1).2.2.2.1
     (by decide) (by decide) (by decide),
   (readDeviceSqlString_failures_empty [0, 6, 65] 0 0 1).2.2.2.2.1
     (by decide) (by decide) (by decide),
   (readDeviceSqlString_failures_empty [0, 65] 0 0 1).2.2.2.2.2
     (by decide) (by decide) (by decide) (by decide)⟩

lemma asciiDecode_id {bytes : ByteBuf} (h : ∀ b ∈ bytes, b < 128) :
    asciiDecode bytes = bytes := by
  unfold asciiDecode
  conv_rhs => rw [← List.map_id bytes]
  apply List.map_congr_left
  intro b hb
  unfold windows1252
  rw [if_neg (by have := h b hb; omega)]
  rfl

lemma utf16leEncode_length (units : List Nat) :
    (utf16leEncode units).length = 2 * units.length := by
  induction units with
  | nil => rfl
  | cons u rest ih =>
    simp only [utf16leEncode, List.flatMap_cons] at ih ⊢
    simp [ih]
    omega

lemma utf16leUnits_encode (units : List Nat) :
    utf16leUnits (utf16leEncode units) = units := by
  induction units with
  | nil => rfl
  | cons u rest ih =>
    show utf16leUnits ([u % 256, u / 256] ++ utf16leEncode rest) = u :: rest
    rw [List.cons_append, List.cons_append, List.nil_append]
    show (u % 256 + 256 * (u / 256)) :: utf16leUnits (utf16leEncode rest) =
      u :: rest
    rw [Nat.mod_add_div u 256, ih]

lemma fixSurrogates_id (units : List Nat)
    (h : ∀ u ∈ units, isHighSurrogate u = false ∧ isLowSurrogate u = false) :
    fixSurrogates units = units := by
  induction units with
  | nil => rfl
  | cons u rest ih =>
    have hu := h u (List.mem_cons_self _ _)
    cases rest with
    | nil => simp [fixSurrogates, hu.1, hu.2]
    | cons l rest2 =>
      have ht : fixSurrogates (l :: rest2) = l :: rest2 :=
        ih fun x hx => h x (List.mem_cons_of_mem _ hx)
      simp [fixSurrogates, hu.1, hu.2, ht]

/-- Evaluate `readDeviceSqlString` on a buffer holding a tag-`0x90` record:
the result is the UTF-16 decoder applied to the encoded code units. -/
lemma readDeviceSqlString_utf16_eval (pos base rel : Nat)
    (A C units : List Nat) (hrel : rel ≠ 0) (hA : A.length = base + rel) :
    BinaryReader.readDeviceSqlString
      ⟨A ++ 0x90 :: (2 * units.length) % 256 :: (2 * units.length) / 256 ::
        (utf16leEncode units ++ C), pos⟩ base rel =
      utf16leDecode (utf16leEncode units) := by
    have helen : (utf16leEncode units).length = 2 * units.length :=
      utf16leEncode_length units
    have hlenbuf : (A ++ 0x90 :: (2 * units.length) % 256 ::
        (2 * units.length) / 256 :: (utf16leEncode units ++ C)).length =
        A.length + 3 + 2 * units.length + C.length := by
      simp [helen]
      omega
    have htag : byteAt (A ++ 0x90 :: (2 * units.length) % 256 ::
        (2 * units.length) / 256 :: (utf16leEncode units ++ C))
        (base + rel) = 0x90 := by
      rw [← hA, show A.length = A.length + 0 from rfl, byteAt_append_at]
      rfl
    have hL : readU16at (A ++ 0x90 :: (2 * units.length) % 256 ::
        (2 * units.length) / 256 :: (utf16leEncode units ++ C))
        (base + rel + 1) = 2 * units.length := by
      unfold readU16at
      rw [← hA, byteAt_append_at,
        show A.length + 1 + 1 = A.length + 2 from by omega, byteAt_append_at]
      show (2 * units.length) % 256 + 256 * ((2 * units.length) / 256) =
        2 * units.length
      exact Nat.mod_add_div _ 256
    simp only [BinaryReader.readDeviceSqlString]
    rw [if_neg hrel, if_neg (show ¬ base + rel ≥ _ from by
      simp only [BinaryReader.length, ge_iff_le, not_le, hlenbuf]
      omega)]
    simp only [BinaryReader.seek,
      readU8_state _ (base + rel) (by rw [hlenbuf]; omega)]
    rw [if_neg (by rw [htag]; omega), if_pos htag]
    simp only [readU16_state _ (base + rel + 1) (by rw [hlenbuf]; omega), hL]
    by_cases hz : units = []
    · subst hz
      simp [utf16leEncode, utf16leDecode, utf16leUnits, fixSurrogates]
    · have hz2 : (2 * units.length == 0) = false := by
        simp [List.length_eq_zero, hz]
      have hcr : (⟨A ++ 0x90 :: (2 * units.length) % 256 ::
          (2 * units.length) / 256 :: (utf16leEncode units ++ C),
          base + rel + 1 + 2⟩ : BinaryReader).canRead (2 * units.length)
          = true := by
        simp only [BinaryReader.canRead, BinaryReader.length, hlenbuf,
          decide_eq_true_eq]
        omega
      rw [if_neg (by simp [hz2, hcr])]
      rw [readBytes_state _ (base + rel + 1 + 2) (2 * units.length)
        (by rw [hlenbuf]; omega)]
      have hdrop : ((A ++ 0x90 :: (2 * units.length) % 256 ::
          (2 * units.length) / 256 :: (utf16leEncode units ++ C)).drop
          (base + rel + 1 + 2)).take (2 * units.length) = utf16leEncode units := by
        rw [← hA, show A.length + 1 + 2 = A.length + 3 from by omega,
          List.drop_append]
        show ((utf16leEncode units ++ C).take (2 * units.length)) =
          utf16leEncode units
        rw [← helen]
        exact List.take_left _ C
      rw [hdrop]

/-- Decoding the encoding of a surrogate-free code-unit list returns the list
itself, except that a leading U+FEFF is consumed as the byte-order mark. -/
lemma utf16leDecode_encode (units : List Nat)
    (hunits : ∀ u ∈ units, u < 65536 ∧ isHighSurrogate u = false ∧
      isLowSurrogate u = false) :
    utf16leDecode (utf16leEncode units) =
      (if units.head? = some 0xFEFF then units.tail else units) := by
  cases units with
  | nil => simp [utf16leEncode, utf16leDecode, utf16leUnits, fixSurrogates]
  | cons u0 rest =>
    have hrest : ∀ u ∈ rest, u < 65536 ∧ isHighSurrogate u = false ∧
        isLowSurrogate u = false :=
      fun u hu => hunits u (List.mem_cons_of_mem _ hu)
    show utf16leDecode (u0 % 256 :: u0 / 256 :: utf16leEncode rest) = _
    by_cases hbom : u0 = 0xFEFF
    · subst hbom
      rw [show ((0xFEFF : Nat) :: rest).head? = some 0xFEFF from rfl]
      rw [if_pos rfl]
      show (if (0xFEFF : Nat) % 256 = 0xFF ∧ (0xFEFF : Nat) / 256 = 0xFE then
          fixSurrogates (utf16leUnits (utf16leEncode rest))
        else fixSurrogates (utf16leUnits ((0xFEFF : Nat) % 256 ::
          (0xFEFF : Nat) / 256 :: utf16leEncode rest))) = rest
      rw [if_pos (by decide)]
      rw [utf16leUnits_encode rest,
        fixSurrogates_id rest (fun u hu => ⟨(hrest u hu).2.1,
          (hrest u hu).2.2⟩)]
    · rw [if_neg (by simp [hbom])]
      show (if u0 % 256 = 0xFF ∧ u0 / 256 = 0xFE then
          fixSurrogates (utf16leUnits (utf16leEncode rest))
        else fixSurrogates (utf16leUnits (u0 % 256 :: u0 / 256 ::
          utf16leEncode rest))) = u0 :: rest
      rw [if_neg (by
        rintro ⟨h1, h2⟩
        exact hbom (by omega))]
      show fixSurrogates (utf16leUnits (utf16leEncode (u0 :: rest))) =
        u0 :: rest
      rw [utf16leUnits_encode (u0 :: rest),
        fixSurrogates_id (u0 :: rest) (fun u hu => ⟨(hunits u hu).2.1,
          (hunits u hu).2.2⟩)]

/-- The amended C7: for every string with a well-formed encoding at
`baseOffset + relativeOffset` under any of the three encodings,
`readDeviceSqlString` returns exactly that string — except on the long-UTF-16
path for a string beginning with U+FEFF, where the decoder consumes that
leading code unit as the byte-order mark and returns the rest of the
string. -/
theorem readDeviceSqlString_decodes (buf : ByteBuf) (pos base rel : Nat)
    (s : JsString) (hrel : rel ≠ 0) :
    (SpecLongAsciiAt buf (base + rel) s →
      BinaryReader.readDeviceSqlString ⟨buf, pos⟩ base rel = s) ∧
    (SpecLongUtf16At buf (base + rel) s → s.head? ≠ some 0xFEFF →
      BinaryReader.readDeviceSqlString ⟨buf, pos⟩ base rel = s) ∧
    (SpecLongUtf16At buf (base + rel) s → s.head? = some 0xFEFF →
      BinaryReader.readDeviceSqlString ⟨buf, pos⟩ base rel = s.tail) ∧
    (SpecShortAsciiAt buf (base + rel) s →
      BinaryReader.readDeviceSqlString ⟨buf, pos⟩ base rel = s) := by
  refine ⟨?_, ?_, ?_, ?_⟩
  · intro hspec
    unfold SpecLongAsciiAt at hspec
    obtain ⟨A, C, chars, hbuf, hA, hcl, hascii, hs⟩ := hspec
    subst s
    subst hbuf
    have hlenbuf : (A ++ 0x40 :: chars.length :: (chars ++ C)).length =
        A.length + 2 + chars.length + C.length := by
      simp
      omega
    have htag : byteAt (A ++ 0x40 :: chars.length :: (chars ++ C))
        (base + rel) = 0x40 := by
      rw [← hA, show A.length = A.length + 0 from rfl, byteAt_append_at]
      rfl
    have hL : byteAt (A ++ 0x40 :: chars.length :: (chars ++ C))
        (base + rel + 1) = chars.length := by
      rw [← hA, byteAt_append_at]
      rfl
    simp only [BinaryReader.readDeviceSqlString]
    rw [if_neg hrel, if_neg (show ¬ base + rel ≥ _ from by
      simp only [BinaryReader.length, ge_iff_le, not_le, hlenbuf]
      omega)]
    simp only [BinaryReader.seek,
      readU8_state _ (base + rel) (by rw [hlenbuf]; omega)]
    rw [if_pos htag]
    simp only [readU8_state _ (base + rel + 1) (by rw [hlenbuf]; omega), hL]
    by_cases hz : chars = []
    · subst hz
      simp
    · have hz2 : (chars.length == 0) = false := by
        simp [List.length_eq_zero, hz]
      have hcr : (⟨A ++ 0x40 :: chars.length :: (chars ++ C),
          base + rel + 1 + 1⟩ : BinaryReader).canRead chars.length = true := by
        simp only [BinaryReader.canRead, BinaryReader.length, hlenbuf,
          decide_eq_true_eq]
        omega
      rw [if_neg (by simp [hz2, hcr])]
      rw [readBytes_state _ (base + rel + 1 + 1) chars.length
        (by rw [hlenbuf]; omega)]
      have hdrop : ((A ++ 0x40 :: chars.length :: (chars ++ C)).drop
          (base + rel + 1 + 1)).take chars.length = chars := by
        rw [← hA, show A.length + 1 + 1 = A.length + 2 from by omega,
          List.drop_append]
        show ((chars ++ C).take chars.length) = chars
        exact List.take_left chars C
      rw [hdrop, asciiDecode_id hascii]
  · intro hspec hbom
    unfold SpecLongUtf16At at hspec
    obtain ⟨A, C, units, hbuf, hA, hul, hunits, hs⟩ := hspec
    subst s
    subst hbuf
    rw [readDeviceSqlString_utf16_eval pos base rel A C units hrel hA,
      utf16leDecode_encode units hunits, if_neg hbom]
  · intro hspec hbom
    unfold SpecLongUtf16At at hspec
    obtain ⟨A, C, units, hbuf, hA, hul, hunits, hs⟩ := hspec
    subst s
    subst hbuf
    rw [readDeviceSqlString_utf16_eval pos base rel A C units hrel hA,
      utf16leDecode_encode units hunits, if_pos hbom]
  · intro hspec
    unfold SpecShortAsciiAt at hspec
    obtain ⟨A, C, tag, bytes, hbuf, hA, htlt, hblen, hascii, hs⟩ := hspec
    subst s
    subst hbuf
    have hlenbuf : (A ++ tag :: (bytes ++ C)).length =
        A.length + 1 + bytes.length + C.length := by
      simp
      omega
    have htag : byteAt (A ++ tag :: (bytes ++ C)) (base + rel) = tag := by
      rw [← hA, show A.length = A.length + 0 from rfl, byteAt_append_at]
      rfl
    simp only [BinaryReader.readDeviceSqlString]
    rw [if_neg hrel, if_neg (show ¬ base + rel ≥ _ from by
      simp only [BinaryReader.length, ge_iff_le, not_le, hlenbuf]
      omega)]
    simp only [BinaryReader.seek,
      readU8_state _ (base + rel) (by rw [hlenbuf]; omega)]
    rw [if_neg (by omega), if_neg (by omega),
      if_pos (by rw [htag]; exact Nat.mod_eq_of_lt htlt)]
    rw [htag, ← hblen]
    by_cases hz : bytes = []
    · subst hz
      simp [stripTrailingNuls]
    · have hz2 : (bytes.length == 0) = false := by
        simp [List.length_eq_zero, hz]
      have hcr : (⟨A ++ tag :: (bytes ++ C),
          base + rel + 1⟩ : BinaryReader).canRead bytes.length = true := by
        simp only [BinaryReader.canRead, BinaryReader.length, hlenbuf,
          decide_eq_true_eq]
        omega
      rw [if_neg (by simp [hz2, hcr])]
      rw [readBytes_state _ (base + rel + 1) bytes.length
        (by rw [hlenbuf]; omega)]
      have hdrop : ((A ++ tag :: (bytes ++ C)).drop
          (base + rel + 1)).take bytes.length = bytes := by
        rw [← hA, List.drop_append 1]
        show ((bytes ++ C).take bytes.length) = bytes
        exact List.take_left bytes C
      rw [hdrop, asciiDecode_id hascii]

/-- Witness for the amended C7: one concrete well-formed buffer per case —
long ASCII "AB", UTF-16 "Hi" (no BOM), UTF-16 with a leading BOM (stripped),
and a short-ASCII "AB" with one trailing NUL stripped. -/
theorem readDeviceSqlString_decodes_witness :
    BinaryReader.readDeviceSqlString ⟨[0, 0x40, 2, 65, 66], 0⟩ 0 1 =
      [65, 66] ∧
    BinaryReader.readDeviceSqlString ⟨[7, 0x90, 4, 0, 72, 0, 105, 0], 0⟩ 0 1 =
      [72, 105] ∧
    BinaryReader.readDeviceSqlString
      ⟨[3, 0x90, 4, 0, 0xFF, 0xFE, 66, 0], 0⟩ 0 1 = [66] ∧
    BinaryReader.readDeviceSqlString ⟨[9, 6, 65, 66, 0], 0⟩ 0 1 = [65, 66] :=
  ⟨(readDeviceSqlString_decodes [0, 0x40, 2, 65, 66] 0 0 1 [65, 66]
      (by decide)).1
     (by unfold SpecLongAsciiAt
         refine ⟨[0], [], [65, 66], ?_, ?_, ?_, ?_, ?_⟩ <;> decide),
   (readDeviceSqlString_decodes [7, 0x90, 4, 0, 72, 0, 105, 0] 0 0 1 [72, 105]
      (by decide)).2.1
     (by unfold SpecLongUtf16At
         refine ⟨[7], [], [72, 105], ?_, ?_, ?_, ?_, ?_⟩ <;> decide)
     (by decide),
   (readDeviceSqlString_decodes [3, 0x90, 4, 0, 0xFF, 0xFE, 66, 0] 0 0 1
      [0xFEFF, 66] (by decide)).2.2.1
     (by unfold SpecLongUtf16At
         refine ⟨[3], [], [0xFEFF, 66], ?_, ?_, ?_, ?_, ?_⟩ <;> decide)
     (by decide),
   (readDeviceSqlString_decodes [9, 6, 65, 66, 0] 0 0 1 [65, 66]
      (by decide)).2.2.2
     (by unfold SpecShortAsciiAt
         refine ⟨[9], [], 6, [65, 66, 0], ?_, ?_, ?_, ?_, ?_, ?_⟩ <;>
           decide)⟩

/-- Counterexample to C7 as stated: the string `[0xFEFF, 65]` (U+FEFF
followed by "A") has a well-formed long-UTF-16 encoding at position 1 of this
buffer, yet `readDeviceSqlString` returns `[65]` — the UTF-16 decoder
consumes the leading byte-order mark, so the result is not exactly the
encoded string. -/
theorem readDeviceSqlString_bom_counterexample :
    SpecLongUtf16At [7, 0x90, 4, 0, 0xFF, 0xFE, 65, 0] 1 [0xFEFF, 65] ∧
    BinaryReader.readDeviceSqlString
      ⟨[7, 0x90, 4, 0, 0xFF, 0xFE, 65, 0], 0⟩ 0 1 = [65] ∧
    ([65] : JsString) ≠ [0xFEFF, 65] := by
  refine ⟨?_, by decide, by decide⟩
  unfold SpecLongUtf16At
  refine ⟨[7], [], [0xFEFF, 65], ?_, ?_, ?_, ?_, ?_⟩ <;> decide

end PDB
